import Mathlib

/-!
Verification of the exercise-guide single-page application
(`src/vite.config.js`, the single React source file).

The development shallowly embeds the app's core logic:

* the JSON value model and the semantics of `JSON.stringify` / `JSON.parse`
  (strings escaped exactly as `JSON.stringify` does; numbers are modelled as
  integers, which covers everything the app ever writes — its only numeric
  fields are epoch-millisecond timestamps);
* the share-link codec `encodeData` / `decodeData`
  (`btoa(unescape(encodeURIComponent(json)))` is UTF-8 encoding followed by
  base64; the inverse chain is base64 decoding, UTF-8 decoding, `JSON.parse`);
* the persistence adapter `loadData`;
* the item-store mutations performed by `handleSave` (create and edit paths),
  `handleDelete`, `importJSON`, and the share-link ingestion effect;
* the query engine (the `filtered` memo): free-text filtering and the numeric
  sort branch of the comparator.

All definitions are executable; theorems relate them to the specified
behaviour.
-/

namespace ExerciseGuide

/-- The JSON value model.  Numbers are modelled as integers: the application
only ever stores integer epoch-millisecond timestamps, and all other fields
are strings, arrays, or objects. -/
inductive Json where
  | null
  | bool (b : Bool)
  | num (n : Int)
  | str (s : String)
  | arr (xs : List Json)
  | obj (fields : List (String × Json))
deriving Repr

/-! ## Decimal digits -/

/-- The decimal digit characters of a natural number, most significant first,
as emitted by `JSON.stringify` for a non-negative integer. -/
def natToChars (n : Nat) : List Char :=
  if _h : n < 10 then [Nat.digitChar n]
  else natToChars (n / 10) ++ [Nat.digitChar (n % 10)]
termination_by n
decreasing_by
  exact Nat.div_lt_self (by omega) (by omega)

/-- The decimal rendering of an integer (`String(n)` / `JSON.stringify(n)`
for integral `n`). -/
def intChars (i : Int) : List Char :=
  if i < 0 then '-' :: natToChars i.natAbs else natToChars i.natAbs

/-! ## String escaping (`JSON.stringify` semantics) -/

/-- How `JSON.stringify` renders one character inside a string literal:
`"` and `\` get a backslash escape, the five control characters with short
escapes use them, any other control character becomes `\u00xy` (lowercase
hex), and everything else — including all non-ASCII text — is emitted raw. -/
def escapeChar (c : Char) : List Char :=
  if c = '"' then ['\\', '"']
  else if c = '\\' then ['\\', '\\']
  else if c = '\n' then ['\\', 'n']
  else if c = '\t' then ['\\', 't']
  else if c = '\r' then ['\\', 'r']
  else if c.toNat = 8 then ['\\', 'b']
  else if c.toNat = 12 then ['\\', 'f']
  else if c.toNat < 32 then
    ['\\', 'u', '0', '0', Nat.digitChar (c.toNat / 16), Nat.digitChar (c.toNat % 16)]
  else [c]

/-- Escape a whole string body. -/
def escapeList (cs : List Char) : List Char :=
  cs.flatMap escapeChar

/-! ## `JSON.stringify` -/

mutual

/-- Model of `JSON.stringify` with no spacing argument: the exact character stream the
application's codec serializes. -/
def stringifyJson : Json → List Char
  | .num i => intChars i
  | .str s => '"' :: (escapeList s.data ++ ['"'])
  | .arr [] => ['[', ']']
  | .arr (x :: xs) => '[' :: (stringifyElems x xs ++ [']'])
  | .obj [] => ['{', '}']
  | .obj (f :: fs) => '{' :: (stringifyFields f fs ++ ['}'])
  | .bool false => 'f' :: ['a', 'l', 's', 'e']
  | .bool true => 't' :: ['r', 'u', 'e']
  | .null => 'n' :: ['u', 'l', 'l']
termination_by j => sizeOf j

/-- Comma-separated serialization of a non-empty array body. -/
def stringifyElems : Json → List Json → List Char
  | x, [] => stringifyJson x
  | x, y :: ys => stringifyJson x ++ ',' :: stringifyElems y ys
termination_by x xs => sizeOf x + sizeOf xs

/-- Comma-separated serialization of a non-empty object body. -/
def stringifyFields : String × Json → List (String × Json) → List Char
  | (k, v), [] => '"' :: (escapeList k.data ++ '"' :: ':' :: stringifyJson v)
  | (k, v), f :: fs =>
      ('"' :: (escapeList k.data ++ '"' :: ':' :: stringifyJson v))
        ++ ',' :: stringifyFields f fs
termination_by f fs => sizeOf f + sizeOf fs

end

/-! ## `JSON.parse`

A recursive-descent parser over the character stream, with explicit fuel
(the top-level entry point supplies `input.length + 1`, which is always
sufficient because every recursive step consumes at least one character).
Faithful to `JSON.parse` on the fragment the application produces;
numbers are restricted to (optionally negated) integer literals, and
`\uXXXX` escapes are required to denote valid scalar values (the model's
strings are well-formed Unicode). -/

/-- JSON insignificant whitespace. -/
def isWsChar (c : Char) : Bool :=
  c = ' ' || c = '\t' || c = '\n' || c = '\r'

/-- Skip insignificant whitespace. -/
def skipWs : List Char → List Char
  | [] => []
  | c :: r => if isWsChar c then skipWs r else c :: r

/-- Value of one hexadecimal digit character. -/
def hexVal (c : Char) : Option Nat :=
  if '0' ≤ c ∧ c ≤ '9' then some (c.toNat - 48)
  else if 'a' ≤ c ∧ c ≤ 'f' then some (c.toNat - 87)
  else if 'A' ≤ c ∧ c ≤ 'F' then some (c.toNat - 55)
  else none

/-- The character denoted by a short escape `\e`. -/
def unescapeChar (e : Char) : Option Char :=
  if e = '"' then some '"'
  else if e = '\\' then some '\\'
  else if e = '/' then some '/'
  else if e = 'n' then some '\n'
  else if e = 't' then some '\t'
  else if e = 'r' then some '\r'
  else if e = 'b' then some (Char.ofNat 8)
  else if e = 'f' then some (Char.ofNat 12)
  else none

/-- Parse the body of a JSON string literal (the opening quote already
consumed), returning the decoded characters and the remaining input. -/
def parseStringBody : List Char → Option (List Char × List Char)
  | [] => none
  | c :: r =>
    if c = '"' then some ([], r)
    else if c = '\\' then
      match r with
      | [] => none
      | e :: r2 =>
        if e = 'u' then
          match r2 with
          | h1 :: h2 :: h3 :: h4 :: r3 =>
            match hexVal h1, hexVal h2, hexVal h3, hexVal h4 with
            | some v1, some v2, some v3, some v4 =>
              let n := v1 * 4096 + v2 * 256 + v3 * 16 + v4
              if Nat.isValidChar n then
                (parseStringBody r3).map (fun p => (Char.ofNat n :: p.1, p.2))
              else none
            | _, _, _, _ => none
          | _ => none
        else
          match unescapeChar e with
          | some ec => (parseStringBody r2).map (fun p => (ec :: p.1, p.2))
          | none => none
    else if c.toNat < 32 then none
    else (parseStringBody r).map (fun p => (c :: p.1, p.2))

/-- Accumulate the value of a digit string. -/
def digitsVal (ds : List Char) : Nat :=
  ds.foldl (fun a c => a * 10 + (c.toNat - 48)) 0

/-- Parse a maximal run of decimal digits as a natural number, rejecting
empty runs and leading zeros, exactly as the JSON number grammar does. -/
def parseNat (s : List Char) : Option (Nat × List Char) :=
  let ds := s.takeWhile Char.isDigit
  match ds with
  | [] => none
  | d :: rest =>
    if d = '0' ∧ rest ≠ [] then none
    else some (digitsVal ds, s.dropWhile Char.isDigit)

/-- Parse a JSON number (integer fragment). -/
def parseNumber (s : List Char) : Option (Json × List Char) :=
  match s with
  | [] => none
  | c :: r =>
    if c = '-' then (parseNat r).map (fun p => (Json.num (-(p.1 : Int)), p.2))
    else (parseNat (c :: r)).map (fun p => (Json.num (p.1 : Int), p.2))

mutual

/-- Parse one JSON value, returning it with the unconsumed remainder. -/
def parseValue : Nat → List Char → Option (Json × List Char)
  | 0, _ => none
  | fuel + 1, s =>
    match skipWs s with
    | 'n' :: 'u' :: 'l' :: 'l' :: r => some (.null, r)
    | 't' :: 'r' :: 'u' :: 'e' :: r => some (.bool true, r)
    | 'f' :: 'a' :: 'l' :: 's' :: 'e' :: r => some (.bool false, r)
    | '"' :: r => (parseStringBody r).map (fun p => (Json.str (String.mk p.1), p.2))
    | '[' :: r =>
      (match skipWs r with
       | ']' :: r2 => some (.arr [], r2)
       | r2 => (parseElems fuel r2).map (fun p => (Json.arr p.1, p.2)))
    | '{' :: r =>
      (match skipWs r with
       | '}' :: r2 => some (.obj [], r2)
       | r2 => (parseFields fuel r2).map (fun p => (Json.obj p.1, p.2)))
    | s' => parseNumber s'

/-- Parse the non-empty comma-separated body of an array, consuming the
closing bracket. -/
def parseElems : Nat → List Char → Option (List Json × List Char)
  | 0, _ => none
  | fuel + 1, s =>
    match parseValue fuel s with
    | none => none
    | some (v, r) =>
      match skipWs r with
      | ',' :: r2 =>
        (match parseElems fuel r2 with
         | some (vs, rest) => some (v :: vs, rest)
         | none => none)
      | ']' :: r2 => some ([v], r2)
      | _ => none

/-- Parse the non-empty comma-separated body of an object, consuming the
closing brace. -/
def parseFields : Nat → List Char → Option (List (String × Json) × List Char)
  | 0, _ => none
  | fuel + 1, s =>
    match skipWs s with
    | '"' :: r =>
      (match parseStringBody r with
       | none => none
       | some (k, r1) =>
         match skipWs r1 with
         | ':' :: r2 =>
           (match parseValue fuel r2 with
            | none => none
            | some (v, r3) =>
              match skipWs r3 with
              | ',' :: r4 =>
                (match parseFields fuel r4 with
                 | some (fs, rest) => some ((String.mk k, v) :: fs, rest)
                 | none => none)
              | '}' :: r4 => some ([(String.mk k, v)], r4)
              | _ => none)
         | _ => none)
    | _ => none

end

/-- Top-level `JSON.parse`: parse one value, allow trailing whitespace,
require full consumption; `none` models a thrown `SyntaxError`. -/
def parseJson (cs : List Char) : Option Json :=
  match parseValue (cs.length + 1) cs with
  | some (v, r) => if skipWs r = [] then some v else none
  | none => none

/-! ## Round-trip: numbers -/

/-- The remaining input does not start with a digit (so maximal-munch number
parsing stops exactly at the serialized number's end). -/
def headNotDigit : List Char → Prop
  | [] => True
  | c :: _ => c.isDigit = false

/-! ## Round-trip: whole values -/

mutual

/-- Fuel consumed by the parser on a serialized value. -/
def nodesJ : Json → Nat
  | .null => 1
  | .bool _ => 1
  | .num _ => 1
  | .str _ => 1
  | .arr [] => 1
  | .arr (x :: xs) => 1 + nodesElems x xs
  | .obj [] => 1
  | .obj (f :: fs) => 1 + nodesFields f fs
termination_by j => sizeOf j

/-- Fuel consumed by the parser on a serialized non-empty array body. -/
def nodesElems : Json → List Json → Nat
  | x, [] => 1 + nodesJ x
  | x, y :: ys => 1 + nodesJ x + nodesElems y ys
termination_by x xs => sizeOf (x :: xs)

/-- Fuel consumed by the parser on a serialized non-empty object body. -/
def nodesFields : String × Json → List (String × Json) → Nat
  | (_, v), [] => 1 + nodesJ v
  | (_, v), g :: gs => 1 + nodesJ v + nodesFields g gs
termination_by f fs => sizeOf (f :: fs)

end

/-! ## UTF-8

`unescape(encodeURIComponent(json))` turns a string into the byte string of
its UTF-8 encoding (each byte as one Latin-1 character), and
`decodeURIComponent(escape(...))` is its inverse; we model the two as UTF-8
encoding to and decoding from a byte list. -/

/-- UTF-8 encoding of one scalar value. -/
def utf8EncodeChar (c : Char) : List Nat :=
  let n := c.toNat
  if n < 128 then [n]
  else if n < 2048 then [192 + n / 64, 128 + n % 64]
  else if n < 65536 then [224 + n / 4096, 128 + n / 64 % 64, 128 + n % 64]
  else [240 + n / 262144, 128 + n / 4096 % 64, 128 + n / 64 % 64, 128 + n % 64]

/-- UTF-8 encoding of a character list as a byte list. -/
def utf8Encode (cs : List Char) : List Nat :=
  cs.flatMap utf8EncodeChar

/-- Decode one UTF-8 scalar from the front of a byte list; `none` on
malformed input (continuation-byte errors, overlong forms, surrogates,
out-of-range values). -/
def utf8DecodeOne : List Nat → Option (Char × List Nat)
  | [] => none
  | b :: r =>
    if b < 128 then some (Char.ofNat b, r)
    else if b < 192 then none
    else if b < 224 then
      match r with
      | b1 :: r1 =>
        if 128 ≤ b1 ∧ b1 < 192 then
          let n := (b - 192) * 64 + (b1 - 128)
          if 128 ≤ n then some (Char.ofNat n, r1) else none
        else none
      | [] => none
    else if b < 240 then
      match r with
      | b1 :: b2 :: r1 =>
        if (128 ≤ b1 ∧ b1 < 192) ∧ (128 ≤ b2 ∧ b2 < 192) then
          let n := (b - 224) * 4096 + (b1 - 128) * 64 + (b2 - 128)
          if 2048 ≤ n ∧ Nat.isValidChar n then some (Char.ofNat n, r1) else none
        else none
      | _ => none
    else if b < 248 then
      match r with
      | b1 :: b2 :: b3 :: r1 =>
        if (128 ≤ b1 ∧ b1 < 192) ∧ (128 ≤ b2 ∧ b2 < 192) ∧
            (128 ≤ b3 ∧ b3 < 192) then
          let n := (b - 240) * 262144 + (b1 - 128) * 4096 + (b2 - 128) * 64
            + (b3 - 128)
          if 65536 ≤ n ∧ n < 1114112 then some (Char.ofNat n, r1) else none
        else none
      | _ => none
    else none

/-- Fuelled UTF-8 decode loop (one fuel unit per decoded scalar). -/
def utf8DecodeLoop : Nat → List Nat → Option (List Char)
  | _, [] => some []
  | 0, _ :: _ => none
  | fuel + 1, b :: r =>
    match utf8DecodeOne (b :: r) with
    | some (c, r1) => (utf8DecodeLoop fuel r1).map (fun cs => c :: cs)
    | none => none

/-- UTF-8 decoding of a byte list; `none` on malformed input. -/
def utf8Decode (bs : List Nat) : Option (List Char) :=
  utf8DecodeLoop bs.length bs

/-! ## Base64 (`btoa` / `atob`) -/

/-- The base64 alphabet character for a sextet value. -/
def b64Char (n : Nat) : Char :=
  if n < 26 then Char.ofNat (65 + n)
  else if n < 52 then Char.ofNat (97 + (n - 26))
  else if n < 62 then Char.ofNat (48 + (n - 52))
  else if n = 62 then '+'
  else '/'

/-- The sextet value of a base64 alphabet character. -/
def b64Val (c : Char) : Option Nat :=
  if 'A' ≤ c ∧ c ≤ 'Z' then some (c.toNat - 65)
  else if 'a' ≤ c ∧ c ≤ 'z' then some (c.toNat - 71)
  else if '0' ≤ c ∧ c ≤ '9' then some (c.toNat - 48 + 52)
  else if c = '+' then some 62
  else if c = '/' then some 63
  else none

/-- Model of `btoa`: encode a byte list in base64 with `=` padding. -/
def base64Encode : List Nat → List Char
  | [] => []
  | [b0] => [b64Char (b0 / 4), b64Char (b0 % 4 * 16), '=', '=']
  | [b0, b1] => [b64Char (b0 / 4), b64Char (b0 % 4 * 16 + b1 / 16),
      b64Char (b1 % 16 * 4), '=']
  | b0 :: b1 :: b2 :: r =>
      b64Char (b0 / 4) :: b64Char (b0 % 4 * 16 + b1 / 16)
        :: b64Char (b1 % 16 * 4 + b2 / 64) :: b64Char (b2 % 64)
        :: base64Encode r

/-- Model of `atob` on properly padded input: decode base64 to a byte list, `none`
(a thrown `InvalidCharacterError`) on anything that is not well-formed
padded base64. -/
def base64Decode : List Char → Option (List Nat)
  | [] => some []
  | c0 :: c1 :: c2 :: c3 :: r =>
    if c2 = '=' ∧ c3 = '=' ∧ r = [] then
      match b64Val c0, b64Val c1 with
      | some v0, some v1 => some [v0 * 4 + v1 / 16]
      | _, _ => none
    else if c3 = '=' ∧ r = [] then
      match b64Val c0, b64Val c1, b64Val c2 with
      | some v0, some v1, some v2 =>
          some [v0 * 4 + v1 / 16, v1 % 16 * 16 + v2 / 4]
      | _, _, _ => none
    else
      match b64Val c0, b64Val c1, b64Val c2, b64Val c3 with
      | some v0, some v1, some v2, some v3 =>
          (base64Decode r).map
            (fun bs => (v0 * 4 + v1 / 16) :: (v1 % 16 * 16 + v2 / 4)
              :: (v2 % 4 * 64 + v3) :: bs)
      | _, _, _, _ => none
  | _ => none

/-! ## The data model and the share-link codec

`Item` is the well-typed record shape the application itself creates
(`handleSave`) and that `importJSON`'s sanitizer aims for; `JSON.stringify`
serializes its fields in insertion order. -/

/-- One exercise-guide record with every field present and well-typed. -/
structure Item where
  id : String
  title : String
  content : String
  caution : String
  link : String
  tags : List String
  createdAt : Int
  updatedAt : Int
deriving Repr, DecidableEq

/-- The JSON object `JSON.stringify` sees for one item (fields in the
creation order used by `handleSave` and `importJSON`). -/
def itemToJson (it : Item) : Json :=
  Json.obj [("id", .str it.id), ("title", .str it.title),
    ("content", .str it.content), ("caution", .str it.caution),
    ("link", .str it.link), ("tags", .arr (it.tags.map Json.str)),
    ("createdAt", .num it.createdAt), ("updatedAt", .num it.updatedAt)]

/-- The JSON array for a whole item list. -/
def itemsToJson (list : List Item) : Json :=
  .arr (list.map itemToJson)

/-- Read back a list of strings from a JSON array of strings. -/
def strsFromJson : List Json → Option (List String)
  | [] => some []
  | .str s :: r => (strsFromJson r).map (fun t => s :: t)
  | _ => none

/-- Read back one item from its JSON object, field for field. -/
def itemFromJson : Json → Option Item
  | Json.obj [("id", .str i), ("title", .str t), ("content", .str c),
      ("caution", .str ca), ("link", .str l), ("tags", .arr tg),
      ("createdAt", .num cr), ("updatedAt", .num up)] =>
      (strsFromJson tg).map (fun tags => ⟨i, t, c, ca, l, tags, cr, up⟩)
  | _ => none

/-- Read back an item list from a JSON array, field for field. -/
def itemsFromJsonList : List Json → Option (List Item)
  | [] => some []
  | j :: r =>
    match itemFromJson j with
    | some it => (itemsFromJsonList r).map (fun t => it :: t)
    | none => none

/-- Read back an item list from a JSON value. -/
def itemsFromJson : Json → Option (List Item)
  | .arr xs => itemsFromJsonList xs
  | _ => none

/-- The source's `encodeData` on an arbitrary JSON value:
`btoa(unescape(encodeURIComponent(JSON.stringify(obj))))` — serialize to
JSON, UTF-8-encode, base64-encode. -/
def encodeJson (j : Json) : List Char :=
  base64Encode (utf8Encode (stringifyJson j))

/-- The source's `encodeData(items)` for an item list. -/
def encodeData (list : List Item) : List Char :=
  encodeJson (itemsToJson list)

/-- The source's `decodeData`:
`JSON.parse(decodeURIComponent(escape(atob(b64))))` — base64-decode,
UTF-8-decode, parse; `none` models a thrown error. -/
def decodeData (token : List Char) : Option Json :=
  match base64Decode token with
  | none => none
  | some bytes =>
    match utf8Decode bytes with
    | none => none
    | some cs => parseJson cs

/-! ## Persistence adapter -/

/-- The source's `loadData` over the persisted store state (`none` models
an absent key).  The `try`/`catch` around `JSON.parse` and the
`Array.isArray` check collapse every failure mode to the empty list; the
function is total — it never raises. -/
def loadData (stored : Option String) : List Json :=
  match stored with
  | none => []
  | some raw =>
    if raw = "" then []
    else
      match parseJson raw.data with
      | some (Json.arr xs) => xs
      | _ => []

/-! ## Character-level string operations

The JavaScript string methods the app uses (`trim`, `split(",")`,
`toLowerCase`, `join`) are modelled over `List Char` so that every
definition evaluates by kernel reduction. -/

/-- Model of `String.prototype.trim` (strip leading and trailing whitespace). -/
def trimChars (cs : List Char) : List Char :=
  ((cs.dropWhile Char.isWhitespace).reverse.dropWhile Char.isWhitespace).reverse

/-- The operation `s.trim()` as a string. -/
def jsTrim (s : String) : String :=
  String.mk (trimChars s.data)

/-- The operation `s.split(",")`. -/
def splitComma : List Char → List (List Char)
  | [] => [[]]
  | c :: r =>
    match splitComma r with
    | [] => [[]]
    | g :: gs => if c = ',' then [] :: g :: gs else (c :: g) :: gs

/-- The operation `s.toLowerCase()` (ASCII case folding, which covers every cased
character the comparator and the search treat specially here). -/
def lowerChars (cs : List Char) : List Char :=
  cs.map Char.toLower

/-- The operation `parts.join(sep)`. -/
def joinWith (sep : List Char) : List String → List Char
  | [] => []
  | [s] => s.data
  | s :: rest => s.data ++ sep ++ joinWith sep rest

/-! ## Item store mutations (`handleSave`, `handleDelete`) -/

/-- Tag normalization in `handleSave`:
`tagsText.split(",").map(s => s.trim()).filter(Boolean)`. -/
def normalizeTags (tagsText : String) : List String :=
  (((splitComma tagsText.data).map (fun g => String.mk (trimChars g))).filter
    (fun s => s ≠ ""))

/-- The create path of `handleSave` (`editingId` null).  `none` models the
validation alert on an empty trimmed title (the list is left untouched);
`newId` is the value minted by `uid()` and `now` the value of `Date.now()`. -/
def handleSaveCreate (newId : String) (now : Int)
    (title content caution link tagsText : String) (prev : List Item) :
    Option (List Item) :=
  let t := jsTrim title
  if t = "" then none
  else
    some ({ id := newId
            title := t
            content := content
            caution := caution
            link := link
            tags := normalizeTags tagsText
            createdAt := now
            updatedAt := now } :: prev)

/-- The edit path of `handleSave` (`editingId` set): map over the list,
replacing the fields of every item whose id matches and refreshing
`updatedAt`; `createdAt` is untouched.  `none` models the validation alert
on an empty trimmed title. -/
def handleSaveEdit (editingId : String) (now : Int)
    (title content caution link tagsText : String) (prev : List Item) :
    Option (List Item) :=
  let t := jsTrim title
  if t = "" then none
  else
    some (prev.map (fun it =>
      if it.id = editingId then
        { it with
          title := t
          content := content
          caution := caution
          link := link
          tags := normalizeTags tagsText
          updatedAt := now }
      else it))

/-- The source's `handleDelete`: after the user confirms, keep every item whose id
differs; with no confirmation the list is untouched.  No error is signalled
in either case. -/
def handleDelete (confirmed : Bool) (itemId : String) (prev : List Item) :
    List Item :=
  if confirmed then prev.filter (fun it => it.id ≠ itemId) else prev

/-! ## JavaScript value semantics for import/share sanitization -/

/-- JavaScript truthiness of a JSON value. -/
def jsTruthy : Json → Bool
  | .null => false
  | .bool b => b
  | .num n => n != 0
  | .str s => s ≠ ""
  | .arr _ => true
  | .obj _ => true

/-- Property access `obj[k]` (last occurrence wins, as for duplicate keys
in a JavaScript object built by `JSON.parse`); `none` is `undefined`. -/
def getFieldList (fs : List (String × Json)) (k : String) : Option Json :=
  match fs with
  | [] => none
  | (k', v) :: r =>
    match getFieldList r k with
    | some v' => some v'
    | none => if k' = k then some v else none

/-- Property access `d[k]` on an arbitrary JSON value. -/
def getField (d : Json) (k : String) : Option Json :=
  match d with
  | .obj fs => getFieldList fs k
  | _ => none

/-- Truthiness of `d[k]` (`undefined` is falsy). -/
def truthyField (d : Json) (k : String) : Bool :=
  match getField d k with
  | some v => jsTruthy v
  | none => false

mutual

/-- The coercion `String(v)` on a JSON value (array elements joined by commas with
null members blank, objects printed as `[object Object]`). -/
def jsToString : Json → String
  | .null => "null"
  | .bool true => "true"
  | .bool false => "false"
  | .num n => String.mk (intChars n)
  | .str s => s
  | .arr xs => String.mk (joinWith [','] (jsToStringElems xs))
  | .obj _ => "[object Object]"
termination_by j => sizeOf j

/-- Model of `Array.prototype.join` member rendering: null members become blank. -/
def jsToStringElems : List Json → List String
  | [] => []
  | .null :: r => "" :: jsToStringElems r
  | v :: r => jsToString v :: jsToStringElems r
termination_by xs => sizeOf xs

end

/-- The coercion `Number(s)` on the integer fragment of string syntax (the application
stores only integer timestamps); `none` is `NaN`. -/
def strToIntOpt (s : String) : Option Int :=
  let t := trimChars s.data
  if t = [] then some 0
  else
    match t with
    | '-' :: ds =>
      if ds ≠ [] ∧ ds.all Char.isDigit then some (-(digitsVal ds : Int)) else none
    | ds => if ds.all Char.isDigit then some (digitsVal ds) else none

/-- The coercion `Number(v)` on a JSON value (integer fragment); `none` is `NaN`. -/
def jsToNumberOpt : Json → Option Int
  | .null => some 0
  | .bool true => some 1
  | .bool false => some 0
  | .num n => some n
  | .str s => strToIntOpt s
  | .arr [] => some 0
  | .arr [x] => jsToNumberOpt x
  | .arr _ => none
  | .obj _ => none

/-- The expression `Number(d[k]) || dflt`: missing field, `NaN` and `0` all fall back. -/
def numFieldOr (d : Json) (k : String) (dflt : Int) : Int :=
  match getField d k with
  | none => dflt
  | some v =>
    match jsToNumberOpt v with
    | none => dflt
    | some n => if n = 0 then dflt else n

/-- The expression `String(d[k] || dflt)`. -/
def strFieldOr (d : Json) (k : String) (dflt : String) : String :=
  match getField d k with
  | some v => if jsTruthy v then jsToString v else dflt
  | none => dflt

/-! ## Import and share-link ingestion -/

/-- The per-record keep test of `importJSON`:
`data.filter(d => d && d.id && d.title)`. -/
def keepRecord (d : Json) : Bool :=
  jsTruthy d && truthyField d "id" && truthyField d "title"

/-- The per-record sanitizer of `importJSON`.  Note that `id: d.id || uid()`
does **not** coerce the id to a string (the filter guarantees `d.id` is
truthy, so `uid()` is dead code and the raw value is kept as is), while
title/content/caution/link are coerced with `String(...)`, tags with an
`Array.isArray` check, and the two timestamps with `Number(...) || Date.now()`. -/
def sanitizeRecord (now : Int) (d : Json) : Json :=
  Json.obj
    [("id", (getField d "id").getD Json.null),
     ("title", .str (strFieldOr d "title" "무제")),
     ("content", .str (strFieldOr d "content" "")),
     ("caution", .str (strFieldOr d "caution" "")),
     ("link", .str (strFieldOr d "link" "")),
     ("tags",
       match getField d "tags" with
       | some (.arr tg) => .arr (tg.map (fun v => .str (jsToString v)))
       | _ => .arr []),
     ("createdAt", .num (numFieldOr d "createdAt" now)),
     ("updatedAt", .num (numFieldOr d "updatedAt" now))]

/-- The source's `importJSON` after `JSON.parse` succeeded on the selected file: `none`
models the visible alert when the top-level value is not an array;
otherwise each record is filtered and sanitized and the result replaces
the whole list. -/
def importJSONData (now : Int) (data : Json) : Option (List Json) :=
  match data with
  | .arr ds => some ((ds.filter keepRecord).map (sanitizeRecord now))
  | _ => none

/-- The share-link ingestion effect (`?data=` handling and the
load-from-link button): decode the token; when it decodes to an array and
the user confirms the overwrite, the decoded records are installed **as
is** — no per-record sanitization happens on this path; otherwise the
current list is kept. -/
def shareIngest (token : List Char) (confirmed : Bool) (current : List Json) :
    List Json :=
  match decodeData token with
  | some (Json.arr xs) => if confirmed then xs else current
  | _ => current

/-! ## Query engine (the `filtered` memo)

Items as the view pipeline sees them: the code guards `content`, `caution`
and `tags` with `|| ""` / `|| []` and the sort key with `|| 0`, so those
fields may be absent; `Option` models absence (a present falsy value and
the fallback coincide for these types).  Case folding models
`toLowerCase`. -/

/-- An item as consumed by the search/sort pipeline. -/
structure QItem where
  title : String
  content : Option String
  caution : Option String
  tags : Option (List String)
  createdAt : Option Int
  updatedAt : Option Int
deriving Repr, DecidableEq

/-- The search haystack:
`` `${it.title}\n${it.content || ""}\n${it.caution || ""}\n${(it.tags || []).join(" ")}` ``
— note the newline separators between the four parts. -/
def hayChars (it : QItem) : List Char :=
  it.title.data ++ '\n' :: (it.content.getD "").data
    ++ '\n' :: (it.caution.getD "").data
    ++ '\n' :: joinWith [' '] (it.tags.getD [])

/-- Does `hay` start with `needle`? -/
def startsWithList : List Char → List Char → Bool
  | [], _ => true
  | _ :: _, [] => false
  | a :: as, b :: bs => a == b && startsWithList as bs

/-- The test `hay.includes(needle)`. -/
def containsSub (needle : List Char) : List Char → Bool
  | [] => needle.isEmpty
  | c :: r => startsWithList needle (c :: r) || containsSub needle r

/-- The per-item match test of the `filtered` memo, with `q` already
trimmed and lowercased. -/
def itemMatches (q : List Char) (it : QItem) : Bool :=
  containsSub q (lowerChars (hayChars it))

/-- The filtering stage of the `filtered` memo:
`q = query.trim().toLowerCase(); q ? items.filter(...) : items`. -/
def filterItems (query : String) (items : List QItem) : List QItem :=
  let q := lowerChars (trimChars query.data)
  if q = [] then items else items.filter (itemMatches q)

/-- The expression `b[sortKey] || 0` for the numeric sort keys (an absent field counts
as 0). -/
def sortKeyVal (key : String) (it : QItem) : Int :=
  if key = "updatedAt" then it.updatedAt.getD 0
  else if key = "createdAt" then it.createdAt.getD 0
  else 0

/-- Stable descending insertion by key. -/
def insertDesc (key : QItem → Int) (x : QItem) : List QItem → List QItem
  | [] => [x]
  | y :: ys => if key y < key x then x :: y :: ys else y :: insertDesc key x ys

/-- Sort in descending key order: the numeric branch of
`[...base].sort((a, b) => (b[sortKey] || 0) - (a[sortKey] || 0))`
(the input list is copied first, so the sort never mutates its input). -/
def sortDesc (key : QItem → Int) : List QItem → List QItem
  | [] => []
  | x :: xs => insertDesc key x (sortDesc key xs)

/-- The sort stage of the `filtered` memo for a non-`"title"` sort key. -/
def sortByNumKey (key : String) (items : List QItem) : List QItem :=
  sortDesc (sortKeyVal key) items

/-! ## Reachable store states (create / edit / delete with a clock) -/

/-- A user-level mutation of the item store, carrying the values `uid()`
and `Date.now()` return when it runs. -/
inductive Op where
  | create (newId : String) (now : Int)
      (title content caution link tagsText : String)
  | edit (editingId : String) (now : Int)
      (title content caution link tagsText : String)
  | del (confirmed : Bool) (id : String)

/-- Apply one mutation; a validation failure leaves the state unchanged. -/
def applyOp (st : List Item) : Op → List Item
  | .create newId now title content caution link tagsText =>
    match handleSaveCreate newId now title content caution link tagsText st with
    | some l => l
    | none => st
  | .edit editingId now title content caution link tagsText =>
    match handleSaveEdit editingId now title content caution link tagsText st with
    | some l => l
    | none => st
  | .del confirmed id => handleDelete confirmed id st

/-- Run a sequence of mutations from a starting state. -/
def runOps (ops : List Op) (st : List Item) : List Item :=
  ops.foldl applyOp st

/-- The clock value an operation reads, if any. -/
def opTime : Op → Option Int
  | .create _ now _ _ _ _ _ => some now
  | .edit _ now _ _ _ _ _ => some now
  | .del _ _ => none

/-- The operations' clock readings never decrease, starting from `t`. -/
def TimesMono : Int → List Op → Prop
  | _, [] => True
  | t, op :: rest =>
    match opTime op with
    | some n => t ≤ n ∧ TimesMono n rest
    | none => TimesMono t rest

/-! ## Remaining modelled interfaces -/

/-- The matching predicate exactly as claim C4 words it: the trimmed,
lowercased query as a substring of the *plain* concatenation of title,
content, caution and space-joined tags (no separators).  Stated from the
spec's words for comparison with the code's `itemMatches`. -/
def specConcatMatch (query : String) (it : QItem) : Bool :=
  containsSub (lowerChars (trimChars query.data))
    (lowerChars (it.title.data ++ (it.content.getD "").data
      ++ (it.caution.getD "").data ++ joinWith [' '] (it.tags.getD [])))

/-- WHATWG `application/x-www-form-urlencoded` value decoding, restricted
to input without `%` (all the codec's tokens): `URLSearchParams.get` — used
by `getQueryParam` and by the load-from-link button — maps every `+` in a
query value to a space. -/
def formDecodeValue (cs : List Char) : List Char :=
  cs.map (fun c => if c = '+' then ' ' else c)

/-! ## Theorems -/

theorem digitChar_isDigit {d : Nat} (h : d < 10) :
    (Nat.digitChar d).isDigit = true := by
  interval_cases d <;> decide

theorem digitChar_toNat {d : Nat} (h : d < 10) :
    (Nat.digitChar d).toNat = 48 + d := by
  interval_cases d <;> decide

theorem digitChar_ne_zero {d : Nat} (h1 : 1 ≤ d) (h10 : d < 10) :
    Nat.digitChar d ≠ '0' := by
  interval_cases d <;> decide

theorem natToChars_all_digits (n : Nat) :
    ∀ c ∈ natToChars n, c.isDigit = true := by
  induction n using Nat.strong_induction_on with
  | _ n ih =>
    rw [natToChars]
    by_cases h : n < 10
    · simp only [h, dite_true, List.mem_singleton]
      rintro c rfl
      exact digitChar_isDigit h
    · simp only [h, dite_false, List.mem_append, List.mem_singleton]
      rintro c (hc | rfl)
      · exact ih (n / 10) (Nat.div_lt_self (by omega) (by omega)) c hc
      · exact digitChar_isDigit (Nat.mod_lt _ (by omega))

theorem natToChars_ne_nil (n : Nat) : natToChars n ≠ [] := by
  rw [natToChars]
  by_cases h : n < 10 <;> simp [h]

theorem natToChars_head_ne_zero (n : Nat) (hn : 1 ≤ n) :
    ∀ d t, natToChars n = d :: t → d ≠ '0' := by
  induction n using Nat.strong_induction_on with
  | _ n ih =>
    rw [natToChars]
    by_cases h : n < 10
    · simp only [h, dite_true]
      rintro d t ⟨⟩
      exact digitChar_ne_zero hn h
    · simp only [h, dite_false]
      intro d t hdt
      obtain ⟨d0, t0, h0⟩ := List.exists_cons_of_ne_nil (natToChars_ne_nil (n / 10))
      rw [h0, List.cons_append] at hdt
      obtain ⟨rfl, -⟩ := List.cons.inj hdt
      exact ih (n / 10) (Nat.div_lt_self (by omega) (by omega))
        (by omega : 1 ≤ n / 10) d0 t0 h0

theorem digitsVal_foldl (n : Nat) :
    ∀ a : Nat, List.foldl (fun a c => a * 10 + (c.toNat - 48)) a (natToChars n)
      = a * 10 ^ (natToChars n).length + n := by
  induction n using Nat.strong_induction_on with
  | _ n ih =>
    intro a
    rw [natToChars]
    by_cases h : n < 10
    · simp only [h, dite_true, List.foldl_cons, List.foldl_nil, List.length_singleton,
        pow_one]
      rw [digitChar_toNat h]
      omega
    · simp only [h, dite_false, List.foldl_append, List.foldl_cons, List.foldl_nil,
        List.length_append, List.length_singleton]
      rw [ih (n / 10) (Nat.div_lt_self (by omega) (by omega)) a]
      rw [digitChar_toNat (Nat.mod_lt _ (by omega))]
      have hp : a * 10 ^ ((natToChars (n / 10)).length + 1)
          = a * 10 ^ (natToChars (n / 10)).length * 10 := by ring
      rw [hp]
      generalize a * 10 ^ (natToChars (n / 10)).length = k
      omega

theorem digitsVal_natToChars (n : Nat) : digitsVal (natToChars n) = n := by
  have := digitsVal_foldl n 0
  simpa [digitsVal] using this

theorem takeWhile_all_append {p : Char → Bool} {xs ys : List Char}
    (hx : ∀ c ∈ xs, p c = true)
    (hy : ∀ c t, ys = c :: t → p c = false) :
    (xs ++ ys).takeWhile p = xs ∧ (xs ++ ys).dropWhile p = ys := by
  induction xs with
  | nil =>
    simp only [List.nil_append]
    cases ys with
    | nil => simp
    | cons c t =>
      have := hy c t rfl
      simp_all [List.takeWhile, List.dropWhile]
  | cons c t iht =>
    have hc : p c = true := hx c (by simp)
    have ht := iht (fun d hd => hx d (by simp [hd]))
    simp_all [List.takeWhile, List.dropWhile]

theorem parseNat_round (n : Nat) (rest : List Char) (h : headNotDigit rest) :
    parseNat (natToChars n ++ rest) = some (n, rest) := by
  have hrest : ∀ c t, rest = c :: t → Char.isDigit c = false := by
    intro c t hct
    subst hct
    simpa [headNotDigit] using h
  obtain ⟨htake, hdrop⟩ := takeWhile_all_append (natToChars_all_digits n) hrest
  obtain ⟨d, t, hdt⟩ := List.exists_cons_of_ne_nil (natToChars_ne_nil n)
  rw [parseNat, htake, hdt]
  simp only
  have hnz : ¬(d = '0' ∧ t ≠ []) := by
    rcases Nat.eq_zero_or_pos n with hn0 | hn1
    · subst hn0
      have : natToChars 0 = ['0'] := by rw [natToChars]; decide
      rw [this] at hdt
      obtain ⟨rfl, rfl⟩ := List.cons.inj hdt
      simp
    · have := natToChars_head_ne_zero n hn1 d t hdt
      tauto
  rw [if_neg hnz, ← hdt, hdrop, digitsVal_natToChars]

theorem parseNumber_round (i : Int) (rest : List Char) (h : headNotDigit rest) :
    parseNumber (intChars i ++ rest) = some (Json.num i, rest) := by
  rw [intChars]
  by_cases hneg : i < 0
  · rw [if_pos hneg]
    simp only [List.cons_append, parseNumber, if_pos rfl]
    rw [parseNat_round i.natAbs rest h]
    show some (Json.num (-(i.natAbs : Int)), rest) = some (Json.num i, rest)
    have hi : (-(i.natAbs : Int)) = i := by omega
    rw [hi]
  · rw [if_neg hneg]
    obtain ⟨d, t, hdt⟩ := List.exists_cons_of_ne_nil (natToChars_ne_nil i.natAbs)
    have hd : d.isDigit = true := natToChars_all_digits _ d (by rw [hdt]; simp)
    have hdm : d ≠ '-' := by
      intro hcon
      rw [hcon] at hd
      exact absurd hd (by decide)
    rw [hdt, List.cons_append, parseNumber, if_neg hdm, ← List.cons_append, ← hdt]
    rw [parseNat_round i.natAbs rest h]
    show some (Json.num ((i.natAbs : Nat) : Int), rest) = some (Json.num i, rest)
    have hi : ((i.natAbs : Nat) : Int) = i := by omega
    rw [hi]

/-! ## Round-trip: strings -/

theorem hexVal_digitChar {m : Nat} (h : m < 16) :
    hexVal (Nat.digitChar m) = some m := by
  interval_cases m <;> decide

theorem parseStringBody_quote (r : List Char) :
    parseStringBody ('"' :: r) = some ([], r) := by
  simp [parseStringBody.eq_def]

theorem parseStringBody_escape {e ec : Char} (r : List Char)
    (hu : e ≠ 'u') (he : unescapeChar e = some ec) :
    parseStringBody ('\\' :: e :: r)
      = (parseStringBody r).map (fun p => (ec :: p.1, p.2)) := by
  rw [parseStringBody.eq_def]
  simp only [if_neg (show ¬('\\' : Char) = '"' by decide), reduceIte, if_neg hu, he]

theorem parseStringBody_unicode {c : Char} (r : List Char) (h : c.toNat < 32) :
    parseStringBody
        ('\\' :: 'u' :: '0' :: '0'
          :: Nat.digitChar (c.toNat / 16) :: Nat.digitChar (c.toNat % 16) :: r)
      = (parseStringBody r).map (fun p => (c :: p.1, p.2)) := by
  rw [parseStringBody.eq_def]
  simp only [if_neg (show ¬('\\' : Char) = '"' by decide), reduceIte]
  rw [show hexVal '0' = some 0 from by decide]
  rw [hexVal_digitChar (by omega : c.toNat / 16 < 16)]
  rw [hexVal_digitChar (by omega : c.toNat % 16 < 16)]
  simp only
  have hn : 0 * 4096 + 0 * 256 + c.toNat / 16 * 16 + c.toNat % 16 = c.toNat := by
    omega
  rw [hn]
  have hvalid : Nat.isValidChar c.toNat := Or.inl (by omega)
  rw [if_pos hvalid, Char.ofNat_toNat]

theorem parseStringBody_raw {c : Char} (r : List Char)
    (h1 : c ≠ '"') (h2 : c ≠ '\\') (h3 : ¬c.toNat < 32) :
    parseStringBody (c :: r)
      = (parseStringBody r).map (fun p => (c :: p.1, p.2)) := by
  rw [parseStringBody.eq_def]
  simp only [if_neg h1, if_neg h2, if_neg h3]

theorem parseStringBody_round (s rest : List Char) :
    parseStringBody (escapeList s ++ '"' :: rest) = some (s, rest) := by
  induction s with
  | nil =>
    simp only [escapeList, List.flatMap_nil, List.nil_append]
    exact parseStringBody_quote rest
  | cons c cs ih =>
    have hstep : escapeList (c :: cs) = escapeChar c ++ escapeList cs := by
      simp [escapeList]
    rw [hstep, List.append_assoc]
    rw [escapeChar]
    by_cases h1 : c = '"'
    · subst h1
      rw [if_pos rfl]
      rw [List.cons_append, List.cons_append, List.nil_append]
      rw [parseStringBody_escape _ (by decide) (by decide : unescapeChar '"' = some '"')]
      rw [ih]
      rfl
    · rw [if_neg h1]
      by_cases h2 : c = '\\'
      · subst h2
        rw [if_pos rfl, List.cons_append, List.cons_append, List.nil_append]
        rw [parseStringBody_escape _ (by decide)
          (by decide : unescapeChar '\\' = some '\\')]
        rw [ih]
        rfl
      · rw [if_neg h2]
        by_cases h3 : c = '\n'
        · subst h3
          rw [if_pos rfl, List.cons_append, List.cons_append, List.nil_append]
          rw [parseStringBody_escape _ (by decide)
            (by decide : unescapeChar 'n' = some '\n')]
          rw [ih]
          rfl
        · rw [if_neg h3]
          by_cases h4 : c = '\t'
          · subst h4
            rw [if_pos rfl, List.cons_append, List.cons_append, List.nil_append]
            rw [parseStringBody_escape _ (by decide)
              (by decide : unescapeChar 't' = some '\t')]
            rw [ih]
            rfl
          · rw [if_neg h4]
            by_cases h5 : c = '\r'
            · subst h5
              rw [if_pos rfl, List.cons_append, List.cons_append, List.nil_append]
              rw [parseStringBody_escape _ (by decide)
                (by decide : unescapeChar 'r' = some '\r')]
              rw [ih]
              rfl
            · rw [if_neg h5]
              by_cases h6 : c.toNat = 8
              · have hc : Char.ofNat 8 = c := by rw [← h6, Char.ofNat_toNat]
                rw [if_pos h6, List.cons_append, List.cons_append, List.nil_append]
                rw [parseStringBody_escape _ (by decide)
                  (by decide : unescapeChar 'b' = some (Char.ofNat 8))]
                rw [ih, hc]
                rfl
              · rw [if_neg h6]
                by_cases h7 : c.toNat = 12
                · have hc : Char.ofNat 12 = c := by rw [← h7, Char.ofNat_toNat]
                  rw [if_pos h7, List.cons_append, List.cons_append, List.nil_append]
                  rw [parseStringBody_escape _ (by decide)
                    (by decide : unescapeChar 'f' = some (Char.ofNat 12))]
                  rw [ih, hc]
                  rfl
                · rw [if_neg h7]
                  by_cases h8 : c.toNat < 32
                  · rw [if_pos h8]
                    simp only [List.cons_append, List.nil_append]
                    rw [parseStringBody_unicode _ h8, ih]
                    rfl
                  · rw [if_neg h8]
                    simp only [List.cons_append, List.nil_append]
                    rw [parseStringBody_raw _ h1 h2 h8, ih]
                    rfl

theorem skipWs_cons {c : Char} (hc : isWsChar c = false) (r : List Char) :
    skipWs (c :: r) = c :: r := by
  simp [skipWs, hc]

theorem string_eta (s : String) : String.mk s.data = s := by
  rcases s with ⟨d⟩
  rfl

theorem intChars_head (i : Int) :
    ∃ d t, intChars i = d :: t ∧ (d = '-' ∨ d.isDigit = true) := by
  rw [intChars]
  by_cases hneg : i < 0
  · exact ⟨'-', natToChars i.natAbs, by rw [if_pos hneg], Or.inl rfl⟩
  · obtain ⟨d, t, hdt⟩ := List.exists_cons_of_ne_nil (natToChars_ne_nil i.natAbs)
    refine ⟨d, t, by rw [if_neg hneg, hdt], Or.inr ?_⟩
    exact natToChars_all_digits _ d (by rw [hdt]; simp)

/-- A digit character is not JSON whitespace and is none of the structural
characters the parser dispatches on. -/
theorem isDigit_facts {d : Char} (hd : d.isDigit = true) :
    isWsChar d = false ∧ d ≠ 'n' ∧ d ≠ 't' ∧ d ≠ 'f' ∧ d ≠ '"' ∧ d ≠ '[' ∧
      d ≠ '{' ∧ d ≠ ']' ∧ d ≠ '}' ∧ d ≠ ',' ∧ d ≠ ':' := by
  refine ⟨?_, ?_, ?_, ?_, ?_, ?_, ?_, ?_, ?_, ?_, ?_⟩ <;>
    first
      | (intro hcon
         rw [hcon] at hd
         exact absurd hd (by decide))
      | (by_cases hsp : d = ' '
         · rw [hsp] at hd
           exact absurd hd (by decide)
         · by_cases htb : d = '\t'
           · rw [htb] at hd
             exact absurd hd (by decide)
           · by_cases hnl : d = '\n'
             · rw [hnl] at hd
               exact absurd hd (by decide)
             · by_cases hcr : d = '\r'
               · rw [hcr] at hd
                 exact absurd hd (by decide)
               · simp [isWsChar, hsp, htb, hnl, hcr])

/-- The first character of a serialized value: it is never whitespace and
never one of the closing/separator characters. -/
theorem stringifyJson_head (j : Json) :
    ∃ c cs, stringifyJson j = c :: cs ∧ isWsChar c = false ∧
      c ≠ ']' ∧ c ≠ '}' ∧ c ≠ ',' ∧ c ≠ ':' := by
  cases j with
  | null => exact ⟨'n', ['u', 'l', 'l'], by simp [stringifyJson], by decide,
      by decide, by decide, by decide, by decide⟩
  | bool b =>
    cases b with
    | true => exact ⟨'t', ['r', 'u', 'e'], by simp [stringifyJson], by decide,
        by decide, by decide, by decide, by decide⟩
    | false => exact ⟨'f', ['a', 'l', 's', 'e'], by simp [stringifyJson], by decide,
        by decide, by decide, by decide, by decide⟩
  | num i =>
    obtain ⟨d, t, hdt, hd⟩ := intChars_head i
    rcases hd with rfl | hdig
    · exact ⟨'-', t, by simp [stringifyJson, hdt], by decide, by decide, by decide,
        by decide, by decide⟩
    · obtain ⟨hws, -, -, -, -, -, -, hne1, hne2, hne3, hne4⟩ := isDigit_facts hdig
      exact ⟨d, t, by simp [stringifyJson, hdt], hws, hne1, hne2, hne3, hne4⟩
  | str s => exact ⟨'"', escapeList s.data ++ ['"'], by simp [stringifyJson],
      by decide, by decide, by decide, by decide, by decide⟩
  | arr xs =>
    cases xs with
    | nil => exact ⟨'[', [']'], by simp [stringifyJson], by decide, by decide,
        by decide, by decide, by decide⟩
    | cons x t => exact ⟨'[', stringifyElems x t ++ [']'], by simp [stringifyJson],
        by decide, by decide, by decide, by decide, by decide⟩
  | obj fs =>
    cases fs with
    | nil => exact ⟨'{', ['}'], by simp [stringifyJson], by decide, by decide,
        by decide, by decide, by decide⟩
    | cons f t => exact ⟨'{', stringifyFields f t ++ ['}'], by simp [stringifyJson],
        by decide, by decide, by decide, by decide, by decide⟩

theorem stringifyElems_eq (x : Json) (xs : List Json) :
    ∃ k, stringifyElems x xs = stringifyJson x ++ k := by
  cases xs with
  | nil => exact ⟨[], by simp [stringifyElems]⟩
  | cons y ys => exact ⟨',' :: stringifyElems y ys, by simp [stringifyElems]⟩

theorem stringifyFields_eq (f : String × Json) (fs : List (String × Json)) :
    ∃ k, stringifyFields f fs = '"' :: k := by
  rcases f with ⟨kk, v⟩
  cases fs with
  | nil => exact ⟨escapeList kk.data ++ '"' :: ':' :: stringifyJson v,
      by simp [stringifyFields]⟩
  | cons g gs => exact ⟨(escapeList kk.data ++ '"' :: ':' :: stringifyJson v)
      ++ ',' :: stringifyFields g gs, by simp [stringifyFields]⟩

mutual

theorem parseValue_stringify (j : Json) (slack : Nat) (rest : List Char)
    (hrest : headNotDigit rest) :
    parseValue (slack + nodesJ j) (stringifyJson j ++ rest) = some (j, rest) := by
  cases j with
  | null =>
    rw [show nodesJ Json.null = 1 from by simp [nodesJ]]
    rw [show stringifyJson Json.null = ['n', 'u', 'l', 'l'] from by simp [stringifyJson]]
    rw [parseValue.eq_def]
    simp [skipWs, isWsChar]
  | bool b =>
    cases b with
    | true =>
      rw [show nodesJ (Json.bool true) = 1 from by simp [nodesJ]]
      rw [show stringifyJson (Json.bool true) = ['t', 'r', 'u', 'e'] from
        by simp [stringifyJson]]
      rw [parseValue.eq_def]
      simp [skipWs, isWsChar]
    | false =>
      rw [show nodesJ (Json.bool false) = 1 from by simp [nodesJ]]
      rw [show stringifyJson (Json.bool false) = ['f', 'a', 'l', 's', 'e'] from
        by simp [stringifyJson]]
      rw [parseValue.eq_def]
      simp [skipWs, isWsChar]
  | num i =>
    rw [show nodesJ (Json.num i) = 1 from by simp [nodesJ]]
    rw [show stringifyJson (Json.num i) = intChars i from by simp [stringifyJson]]
    obtain ⟨d, t, hdt, hd⟩ := intChars_head i
    have hfacts : isWsChar d = false ∧ d ≠ 'n' ∧ d ≠ 't' ∧ d ≠ 'f' ∧ d ≠ '"' ∧
        d ≠ '[' ∧ d ≠ '{' := by
      rcases hd with rfl | hdig
      · exact ⟨by decide, by decide, by decide, by decide, by decide, by decide,
          by decide⟩
      · obtain ⟨hws, h1, h2, h3, h4, h5, h6, -, -, -, -⟩ := isDigit_facts hdig
        exact ⟨hws, h1, h2, h3, h4, h5, h6⟩
    obtain ⟨hws, hn, ht, hf, hq, hlb, hlc⟩ := hfacts
    rw [hdt, List.cons_append, parseValue.eq_def]
    simp only []
    rw [skipWs_cons hws]
    split <;>
      first
        | (rw [← List.cons_append, ← hdt]
           exact parseNumber_round i rest hrest)
        | simp_all
  | str s =>
    rw [show nodesJ (Json.str s) = 1 from by simp [nodesJ]]
    rw [show stringifyJson (Json.str s) = '"' :: (escapeList s.data ++ ['"']) from
      by simp [stringifyJson]]
    rw [List.cons_append, List.append_assoc]
    rw [show (['"'] : List Char) ++ rest = '"' :: rest from rfl]
    rw [parseValue.eq_def]
    simp only []
    rw [skipWs_cons (show isWsChar '"' = false by decide)]
    simp only []
    rw [parseStringBody_round s.data rest]
    simp [string_eta]
  | arr xs =>
    cases xs with
    | nil =>
      rw [show nodesJ (Json.arr []) = 1 from by simp [nodesJ]]
      rw [show stringifyJson (Json.arr []) = ['[', ']'] from by simp [stringifyJson]]
      rw [parseValue.eq_def]
      simp [skipWs, isWsChar]
    | cons x xs =>
      rw [show nodesJ (Json.arr (x :: xs)) = 1 + nodesElems x xs from by simp [nodesJ]]
      rw [show stringifyJson (Json.arr (x :: xs))
          = '[' :: (stringifyElems x xs ++ [']']) from by simp [stringifyJson]]
      have hfuel : slack + (1 + nodesElems x xs) = (slack + nodesElems x xs) + 1 := by
        omega
      rw [hfuel, List.cons_append, List.append_assoc]
      rw [show ([']'] : List Char) ++ rest = ']' :: rest from rfl]
      obtain ⟨k, hk⟩ := stringifyElems_eq x xs
      obtain ⟨c, cs, hcs, hws2, hbr, -, -, -⟩ := stringifyJson_head x
      have hsc : stringifyElems x xs ++ ']' :: rest = c :: (cs ++ k ++ ']' :: rest) := by
        rw [hk, hcs]
        simp
      rw [parseValue.eq_def]
      simp only []
      rw [skipWs_cons (show isWsChar '[' = false by decide)]
      simp only []
      rw [hsc, skipWs_cons hws2]
      split <;>
        first
          | (rw [← hsc, parseElems_stringify x xs slack rest]
             rfl)
          | simp_all
  | obj fs =>
    cases fs with
    | nil =>
      rw [show nodesJ (Json.obj []) = 1 from by simp [nodesJ]]
      rw [show stringifyJson (Json.obj []) = ['{', '}'] from by simp [stringifyJson]]
      rw [parseValue.eq_def]
      simp [skipWs, isWsChar]
    | cons f fs =>
      rw [show nodesJ (Json.obj (f :: fs)) = 1 + nodesFields f fs from by simp [nodesJ]]
      rw [show stringifyJson (Json.obj (f :: fs))
          = '{' :: (stringifyFields f fs ++ ['}']) from by simp [stringifyJson]]
      have hfuel : slack + (1 + nodesFields f fs) = (slack + nodesFields f fs) + 1 := by
        omega
      rw [hfuel, List.cons_append, List.append_assoc]
      rw [show (['}'] : List Char) ++ rest = '}' :: rest from rfl]
      obtain ⟨k, hk⟩ := stringifyFields_eq f fs
      have hsc : stringifyFields f fs ++ '}' :: rest = '"' :: (k ++ '}' :: rest) := by
        rw [hk]
        simp
      rw [parseValue.eq_def]
      simp only []
      rw [skipWs_cons (show isWsChar '{' = false by decide)]
      simp only []
      rw [hsc, skipWs_cons (show isWsChar '"' = false by decide)]
      split <;>
        first
          | (rw [← hsc, parseFields_stringify f fs slack rest]
             rfl)
          | simp_all
termination_by sizeOf j

theorem parseElems_stringify (x : Json) (xs : List Json) (slack : Nat)
    (rest : List Char) :
    parseElems (slack + nodesElems x xs) (stringifyElems x xs ++ ']' :: rest)
      = some (x :: xs, rest) := by
  cases xs with
  | nil =>
    rw [show nodesElems x [] = 1 + nodesJ x from by simp [nodesElems]]
    rw [show stringifyElems x [] = stringifyJson x from by simp [stringifyElems]]
    have hfuel : slack + (1 + nodesJ x) = (slack + nodesJ x) + 1 := by omega
    rw [hfuel, parseElems.eq_def]
    simp only []
    rw [parseValue_stringify x slack (']' :: rest)
      (show (']').isDigit = false by decide)]
    simp only []
    rw [skipWs_cons (show isWsChar ']' = false by decide)]
    rfl
  | cons y ys =>
    rw [show nodesElems x (y :: ys) = 1 + nodesJ x + nodesElems y ys from
      by simp [nodesElems]]
    rw [show stringifyElems x (y :: ys)
        = stringifyJson x ++ ',' :: stringifyElems y ys from by simp [stringifyElems]]
    have hfuel : slack + (1 + nodesJ x + nodesElems y ys)
        = ((slack + nodesElems y ys) + nodesJ x) + 1 := by omega
    rw [hfuel, List.append_assoc, List.cons_append]
    rw [parseElems.eq_def]
    simp only []
    rw [parseValue_stringify x (slack + nodesElems y ys)
      (',' :: (stringifyElems y ys ++ ']' :: rest))
      (show (',').isDigit = false by decide)]
    simp only []
    rw [skipWs_cons (show isWsChar ',' = false by decide)]
    simp only []
    have hfuel2 : (slack + nodesElems y ys) + nodesJ x
        = (slack + nodesJ x) + nodesElems y ys := by omega
    rw [hfuel2, parseElems_stringify y ys (slack + nodesJ x) rest]
termination_by sizeOf (x :: xs)

theorem parseFields_stringify (f : String × Json) (fs : List (String × Json))
    (slack : Nat) (rest : List Char) :
    parseFields (slack + nodesFields f fs) (stringifyFields f fs ++ '}' :: rest)
      = some (f :: fs, rest) := by
  rcases f with ⟨kk, v⟩
  cases fs with
  | nil =>
    rw [show nodesFields (kk, v) [] = 1 + nodesJ v from by simp [nodesFields]]
    rw [show stringifyFields (kk, v) []
        = '"' :: (escapeList kk.data ++ '"' :: ':' :: stringifyJson v) from
      by simp [stringifyFields]]
    have hfuel : slack + (1 + nodesJ v) = (slack + nodesJ v) + 1 := by omega
    rw [hfuel, List.cons_append, List.append_assoc]
    rw [parseFields.eq_def]
    simp only []
    rw [skipWs_cons (show isWsChar '"' = false by decide)]
    simp only []
    rw [show ('"' :: ':' :: stringifyJson v) ++ '}' :: rest
        = '"' :: (':' :: (stringifyJson v ++ '}' :: rest)) from by simp]
    rw [parseStringBody_round kk.data (':' :: (stringifyJson v ++ '}' :: rest))]
    simp only []
    rw [skipWs_cons (show isWsChar ':' = false by decide)]
    simp only []
    rw [parseValue_stringify v slack ('}' :: rest)
      (show ('}').isDigit = false by decide)]
    simp only []
    rw [skipWs_cons (show isWsChar '}' = false by decide)]
    simp [string_eta]
  | cons g gs =>
    rw [show nodesFields (kk, v) (g :: gs) = 1 + nodesJ v + nodesFields g gs from
      by simp [nodesFields]]
    rw [show stringifyFields (kk, v) (g :: gs)
        = ('"' :: (escapeList kk.data ++ '"' :: ':' :: stringifyJson v))
            ++ ',' :: stringifyFields g gs from by simp [stringifyFields]]
    have hfuel : slack + (1 + nodesJ v + nodesFields g gs)
        = ((slack + nodesFields g gs) + nodesJ v) + 1 := by omega
    have hin : (('"' :: (escapeList kk.data ++ '"' :: ':' :: stringifyJson v))
          ++ ',' :: stringifyFields g gs) ++ '}' :: rest
        = '"' :: (escapeList kk.data ++ '"' :: (':' :: (stringifyJson v
            ++ ',' :: (stringifyFields g gs ++ '}' :: rest)))) := by simp
    rw [hfuel, hin]
    rw [parseFields.eq_def]
    simp only []
    rw [skipWs_cons (show isWsChar '"' = false by decide)]
    simp only []
    rw [parseStringBody_round kk.data]
    simp only []
    rw [skipWs_cons (show isWsChar ':' = false by decide)]
    simp only []
    rw [parseValue_stringify v (slack + nodesFields g gs)
      (',' :: (stringifyFields g gs ++ '}' :: rest))
      (show (',').isDigit = false by decide)]
    simp only []
    rw [skipWs_cons (show isWsChar ',' = false by decide)]
    simp only []
    have hfuel2 : (slack + nodesFields g gs) + nodesJ v
        = (slack + nodesJ v) + nodesFields g gs := by omega
    rw [hfuel2, parseFields_stringify g gs (slack + nodesJ v) rest]
termination_by sizeOf (f :: fs)

end

mutual

theorem nodesJ_le_len (j : Json) : nodesJ j ≤ (stringifyJson j).length := by
  cases j with
  | null =>
    rw [show nodesJ Json.null = 1 from by simp [nodesJ]]
    simp [stringifyJson]
  | bool b =>
    cases b with
    | true =>
      rw [show nodesJ (Json.bool true) = 1 from by simp [nodesJ]]
      simp [stringifyJson]
    | false =>
      rw [show nodesJ (Json.bool false) = 1 from by simp [nodesJ]]
      simp [stringifyJson]
  | num i =>
    rw [show nodesJ (Json.num i) = 1 from by simp [nodesJ]]
    rw [show stringifyJson (Json.num i) = intChars i from by simp [stringifyJson]]
    obtain ⟨d, t, hdt, -⟩ := intChars_head i
    rw [hdt]
    simp
  | str s =>
    rw [show nodesJ (Json.str s) = 1 from by simp [nodesJ]]
    simp [stringifyJson]
  | arr xs =>
    cases xs with
    | nil =>
      rw [show nodesJ (Json.arr []) = 1 from by simp [nodesJ]]
      simp [stringifyJson]
    | cons x t =>
      rw [show nodesJ (Json.arr (x :: t)) = 1 + nodesElems x t from by simp [nodesJ]]
      rw [show stringifyJson (Json.arr (x :: t))
          = '[' :: (stringifyElems x t ++ [']']) from by simp [stringifyJson]]
      have := nodesElems_le_len x t
      simp only [List.length_cons, List.length_append, List.length_singleton]
      omega
  | obj fs =>
    cases fs with
    | nil =>
      rw [show nodesJ (Json.obj []) = 1 from by simp [nodesJ]]
      simp [stringifyJson]
    | cons f t =>
      rw [show nodesJ (Json.obj (f :: t)) = 1 + nodesFields f t from by simp [nodesJ]]
      rw [show stringifyJson (Json.obj (f :: t))
          = '{' :: (stringifyFields f t ++ ['}']) from by simp [stringifyJson]]
      have := nodesFields_le_len f t
      simp only [List.length_cons, List.length_append, List.length_singleton]
      omega
termination_by sizeOf j

theorem nodesElems_le_len (x : Json) (xs : List Json) :
    nodesElems x xs ≤ (stringifyElems x xs).length + 1 := by
  cases xs with
  | nil =>
    rw [show nodesElems x [] = 1 + nodesJ x from by simp [nodesElems]]
    rw [show stringifyElems x [] = stringifyJson x from by simp [stringifyElems]]
    have := nodesJ_le_len x
    omega
  | cons y ys =>
    rw [show nodesElems x (y :: ys) = 1 + nodesJ x + nodesElems y ys from
      by simp [nodesElems]]
    rw [show stringifyElems x (y :: ys)
        = stringifyJson x ++ ',' :: stringifyElems y ys from by simp [stringifyElems]]
    have h1 := nodesJ_le_len x
    have h2 := nodesElems_le_len y ys
    simp only [List.length_append, List.length_cons]
    omega
termination_by sizeOf (x :: xs)

theorem nodesFields_le_len (f : String × Json) (fs : List (String × Json)) :
    nodesFields f fs ≤ (stringifyFields f fs).length + 1 := by
  rcases f with ⟨kk, v⟩
  cases fs with
  | nil =>
    rw [show nodesFields (kk, v) [] = 1 + nodesJ v from by simp [nodesFields]]
    rw [show stringifyFields (kk, v) []
        = '"' :: (escapeList kk.data ++ '"' :: ':' :: stringifyJson v) from
      by simp [stringifyFields]]
    have := nodesJ_le_len v
    simp only [List.length_cons, List.length_append]
    omega
  | cons g gs =>
    rw [show nodesFields (kk, v) (g :: gs) = 1 + nodesJ v + nodesFields g gs from
      by simp [nodesFields]]
    rw [show stringifyFields (kk, v) (g :: gs)
        = ('"' :: (escapeList kk.data ++ '"' :: ':' :: stringifyJson v))
            ++ ',' :: stringifyFields g gs from by simp [stringifyFields]]
    have h1 := nodesJ_le_len v
    have h2 := nodesFields_le_len g gs
    simp only [List.length_append, List.length_cons]
    omega
termination_by sizeOf (f :: fs)

end

/-- Parsing inverts serialization on every JSON value. -/
theorem parseJson_stringify (j : Json) : parseJson (stringifyJson j) = some j := by
  have hb : nodesJ j ≤ (stringifyJson j).length := nodesJ_le_len j
  have hf : (stringifyJson j).length + 1
      = ((stringifyJson j).length + 1 - nodesJ j) + nodesJ j := by omega
  rw [parseJson, hf]
  rw [show stringifyJson j = stringifyJson j ++ ([] : List Char) from
    by simp]
  rw [show ((stringifyJson j ++ ([] : List Char)).length + 1 - nodesJ j)
      = ((stringifyJson j).length + 1 - nodesJ j) from by simp]
  rw [parseValue_stringify j ((stringifyJson j).length + 1 - nodesJ j) []
    trivial]
  simp [skipWs]

theorem char_valid_nat (c : Char) : Nat.isValidChar c.toNat := c.valid

theorem utf8DecodeOne_round (c : Char) (r : List Nat) :
    utf8DecodeOne (utf8EncodeChar c ++ r) = some (c, r) := by
  have hval : c.toNat < 55296 ∨ (57343 < c.toNat ∧ c.toNat < 1114112) :=
    char_valid_nat c
  rw [utf8EncodeChar]
  by_cases h1 : c.toNat < 128
  · rw [if_pos h1]
    simp only [List.cons_append, List.nil_append]
    rw [utf8DecodeOne.eq_def]
    simp only []
    rw [if_pos h1, Char.ofNat_toNat]
  · rw [if_neg h1]
    by_cases h2 : c.toNat < 2048
    · rw [if_pos h2]
      simp only [List.cons_append, List.nil_append]
      rw [utf8DecodeOne.eq_def]
      simp only []
      rw [if_neg (by omega), if_neg (by omega), if_pos (by omega)]
      rw [if_pos (by omega), if_pos (by omega)]
      have hn : (192 + c.toNat / 64 - 192) * 64 + (128 + c.toNat % 64 - 128)
          = c.toNat := by omega
      rw [hn, Char.ofNat_toNat]
    · rw [if_neg h2]
      by_cases h3 : c.toNat < 65536
      · rw [if_pos h3]
        simp only [List.cons_append, List.nil_append]
        rw [utf8DecodeOne.eq_def]
        simp only []
        rw [if_neg (by omega), if_neg (by omega), if_neg (by omega),
          if_pos (by omega)]
        rw [if_pos (by constructor <;> constructor <;> omega)]
        have hn : (224 + c.toNat / 4096 - 224) * 4096
            + (128 + c.toNat / 64 % 64 - 128) * 64 + (128 + c.toNat % 64 - 128)
            = c.toNat := by omega
        rw [hn]
        have hv : 2048 ≤ c.toNat ∧ Nat.isValidChar c.toNat := by
          refine ⟨by omega, ?_⟩
          rcases hval with h | h
          · exact Or.inl (by omega)
          · exact Or.inr (by omega)
        rw [if_pos hv, Char.ofNat_toNat]
      · rw [if_neg h3]
        simp only [List.cons_append, List.nil_append]
        rw [utf8DecodeOne.eq_def]
        simp only []
        have hup : c.toNat < 1114112 := by omega
        rw [if_neg (by omega), if_neg (by omega), if_neg (by omega),
          if_neg (by omega), if_pos (by omega)]
        rw [if_pos (by refine ⟨⟨?_, ?_⟩, ⟨?_, ?_⟩, ⟨?_, ?_⟩⟩ <;> omega)]
        have hn : (240 + c.toNat / 262144 - 240) * 262144
            + (128 + c.toNat / 4096 % 64 - 128) * 4096
            + (128 + c.toNat / 64 % 64 - 128) * 64 + (128 + c.toNat % 64 - 128)
            = c.toNat := by omega
        rw [hn]
        rw [if_pos (by omega), Char.ofNat_toNat]

theorem utf8EncodeChar_cons (c : Char) :
    ∃ b bs, utf8EncodeChar c = b :: bs := by
  rw [utf8EncodeChar]
  by_cases h1 : c.toNat < 128
  · rw [if_pos h1]
    exact ⟨_, _, rfl⟩
  · rw [if_neg h1]
    by_cases h2 : c.toNat < 2048
    · rw [if_pos h2]
      exact ⟨_, _, rfl⟩
    · rw [if_neg h2]
      by_cases h3 : c.toNat < 65536
      · rw [if_pos h3]
        exact ⟨_, _, rfl⟩
      · rw [if_neg h3]
        exact ⟨_, _, rfl⟩

theorem utf8Loop_round (cs : List Char) (slack : Nat) :
    utf8DecodeLoop (slack + cs.length) (utf8Encode cs) = some cs := by
  induction cs generalizing slack with
  | nil => simp [utf8Encode, utf8DecodeLoop]
  | cons c t ih =>
    rw [show utf8Encode (c :: t) = utf8EncodeChar c ++ utf8Encode t from
      by simp [utf8Encode]]
    obtain ⟨b, bs, hb⟩ := utf8EncodeChar_cons c
    have hf : slack + (c :: t).length = (slack + t.length) + 1 := by
      simp only [List.length_cons]
      omega
    rw [hf, hb, List.cons_append, utf8DecodeLoop.eq_def]
    simp only []
    rw [← List.cons_append, ← hb, utf8DecodeOne_round c (utf8Encode t)]
    simp only []
    rw [ih slack]
    rfl

theorem utf8Encode_len_ge (cs : List Char) :
    cs.length ≤ (utf8Encode cs).length := by
  induction cs with
  | nil => simp [utf8Encode]
  | cons c t ih =>
    rw [show utf8Encode (c :: t) = utf8EncodeChar c ++ utf8Encode t from
      by simp [utf8Encode]]
    obtain ⟨b, bs, hb⟩ := utf8EncodeChar_cons c
    rw [hb]
    simp only [List.length_cons, List.cons_append, List.length_append]
    omega

/-- UTF-8 decoding inverts UTF-8 encoding. -/
theorem utf8_round (cs : List Char) : utf8Decode (utf8Encode cs) = some cs := by
  rw [utf8Decode]
  have hge := utf8Encode_len_ge cs
  have hf : (utf8Encode cs).length
      = ((utf8Encode cs).length - cs.length) + cs.length := by omega
  rw [hf, utf8Loop_round]

theorem b64Val_b64Char {n : Nat} (h : n < 64) : b64Val (b64Char n) = some n := by
  interval_cases n <;> decide

theorem b64Char_ne_pad {n : Nat} (h : n < 64) : b64Char n ≠ '=' := by
  intro hc
  have hv := b64Val_b64Char h
  rw [hc, show b64Val '=' = none from by decide] at hv
  exact Option.noConfusion hv

/-- Base64 decoding inverts base64 encoding on byte lists. -/
theorem base64_round (bs : List Nat) (h : ∀ b ∈ bs, b < 256) :
    base64Decode (base64Encode bs) = some bs := by
  induction bs using base64Encode.induct with
  | case1 => simp [base64Encode, base64Decode]
  | case2 b0 =>
    have hb0 : b0 < 256 := h b0 (by simp)
    rw [show base64Encode [b0]
        = [b64Char (b0 / 4), b64Char (b0 % 4 * 16), '=', '='] from
      by simp [base64Encode]]
    rw [base64Decode.eq_def]
    simp only []
    rw [if_pos (⟨trivial, trivial, trivial⟩ : True ∧ True ∧ True)]
    rw [b64Val_b64Char (by omega), b64Val_b64Char (by omega)]
    simp only []
    have hb : b0 / 4 * 4 + b0 % 4 * 16 / 16 = b0 := by omega
    rw [hb]
  | case3 b0 b1 =>
    have hb0 : b0 < 256 := h b0 (by simp)
    have hb1 : b1 < 256 := h b1 (by simp)
    rw [show base64Encode [b0, b1]
        = [b64Char (b0 / 4), b64Char (b0 % 4 * 16 + b1 / 16),
            b64Char (b1 % 16 * 4), '='] from by simp [base64Encode]]
    rw [base64Decode.eq_def]
    simp only []
    rw [if_neg (fun hcon => absurd hcon.1 (b64Char_ne_pad (by omega)))]
    rw [if_pos (⟨trivial, trivial⟩ : True ∧ True)]
    rw [b64Val_b64Char (by omega), b64Val_b64Char (by omega),
      b64Val_b64Char (by omega)]
    simp only []
    have he1 : b0 / 4 * 4 + (b0 % 4 * 16 + b1 / 16) / 16 = b0 := by omega
    have he2 : (b0 % 4 * 16 + b1 / 16) % 16 * 16 + b1 % 16 * 4 / 4 = b1 := by
      omega
    rw [he1, he2]
  | case4 b0 b1 b2 r ih =>
    have hb0 : b0 < 256 := h b0 (by simp)
    have hb1 : b1 < 256 := h b1 (by simp)
    have hb2 : b2 < 256 := h b2 (by simp)
    rw [show base64Encode (b0 :: b1 :: b2 :: r)
        = b64Char (b0 / 4) :: b64Char (b0 % 4 * 16 + b1 / 16)
            :: b64Char (b1 % 16 * 4 + b2 / 64) :: b64Char (b2 % 64)
            :: base64Encode r from by rw [base64Encode]]
    rw [base64Decode.eq_def]
    simp only []
    rw [if_neg (fun hcon => absurd hcon.1 (b64Char_ne_pad (by omega)))]
    rw [if_neg (fun hcon => absurd hcon.1 (b64Char_ne_pad (by omega)))]
    rw [b64Val_b64Char (by omega), b64Val_b64Char (by omega),
      b64Val_b64Char (by omega), b64Val_b64Char (by omega)]
    simp only []
    rw [ih (fun b hb => h b (by simp [hb]))]
    have he1 : b0 / 4 * 4 + (b0 % 4 * 16 + b1 / 16) / 16 = b0 := by omega
    have he2 : (b0 % 4 * 16 + b1 / 16) % 16 * 16
        + (b1 % 16 * 4 + b2 / 64) / 4 = b1 := by omega
    have he3 : (b1 % 16 * 4 + b2 / 64) % 4 * 64 + b2 % 64 = b2 := by omega
    rw [he1, he2, he3]
    rfl

theorem utf8EncodeChar_lt256 (c : Char) : ∀ b ∈ utf8EncodeChar c, b < 256 := by
  have hval : c.toNat < 55296 ∨ (57343 < c.toNat ∧ c.toNat < 1114112) :=
    char_valid_nat c
  rw [utf8EncodeChar]
  by_cases h1 : c.toNat < 128
  · rw [if_pos h1]
    intro b hb
    simp only [List.mem_singleton] at hb
    omega
  · rw [if_neg h1]
    by_cases h2 : c.toNat < 2048
    · rw [if_pos h2]
      intro b hb
      simp only [List.mem_cons, List.mem_singleton, List.not_mem_nil, or_false] at hb
      rcases hb with rfl | rfl <;> omega
    · rw [if_neg h2]
      by_cases h3 : c.toNat < 65536
      · rw [if_pos h3]
        intro b hb
        simp only [List.mem_cons, List.mem_singleton, List.not_mem_nil, or_false] at hb
        rcases hb with rfl | rfl | rfl <;> omega
      · rw [if_neg h3]
        intro b hb
        simp only [List.mem_cons, List.mem_singleton, List.not_mem_nil, or_false] at hb
        rcases hb with rfl | rfl | rfl | rfl <;> omega

theorem utf8Encode_lt256 (cs : List Char) : ∀ b ∈ utf8Encode cs, b < 256 := by
  intro b hb
  rw [utf8Encode, List.mem_flatMap] at hb
  obtain ⟨c, -, hbc⟩ := hb
  exact utf8EncodeChar_lt256 c b hbc

theorem strsFromJson_round (tags : List String) :
    strsFromJson (tags.map Json.str) = some tags := by
  induction tags with
  | nil => rfl
  | cons s t ih => simp [strsFromJson, ih]

theorem itemFromJson_round (it : Item) : itemFromJson (itemToJson it) = some it := by
  rcases it with ⟨i, t, c, ca, l, tags, cr, up⟩
  simp [itemToJson, itemFromJson, strsFromJson_round]

theorem itemsFromJson_round (list : List Item) :
    itemsFromJson (itemsToJson list) = some list := by
  rw [itemsToJson, itemsFromJson]
  induction list with
  | nil => rfl
  | cons it rest ih =>
    simp only [List.map_cons, itemsFromJsonList, itemFromJson_round]
    rw [ih]
    rfl

/-- The full decode chain inverts the full encode chain on every JSON
value. -/
theorem decodeData_encodeJson (j : Json) : decodeData (encodeJson j) = some j := by
  rw [decodeData, encodeJson]
  rw [base64_round _ (utf8Encode_lt256 (stringifyJson j))]
  simp only []
  rw [utf8_round]
  simp only []
  rw [parseJson_stringify j]

theorem insertDesc_perm (key : QItem → Int) (x : QItem) (l : List QItem) :
    List.Perm (insertDesc key x l) (x :: l) := by
  induction l with
  | nil => exact List.Perm.refl _
  | cons y ys ih =>
    rw [insertDesc]
    by_cases h : key y < key x
    · rw [if_pos h]
    · rw [if_neg h]
      exact List.Perm.trans (List.Perm.cons y ih) (List.Perm.swap x y ys)

theorem sortDesc_perm (key : QItem → Int) (l : List QItem) :
    List.Perm (sortDesc key l) l := by
  induction l with
  | nil => exact List.Perm.refl _
  | cons x xs ih =>
    rw [sortDesc]
    exact List.Perm.trans (insertDesc_perm key x (sortDesc key xs))
      (List.Perm.cons x ih)

theorem insertDesc_sorted (key : QItem → Int) (x : QItem) (l : List QItem)
    (hl : l.Pairwise (fun a b => key b ≤ key a)) :
    (insertDesc key x l).Pairwise (fun a b => key b ≤ key a) := by
  induction l with
  | nil => simp [insertDesc]
  | cons y ys ih =>
    rw [insertDesc]
    rw [List.pairwise_cons] at hl
    by_cases h : key y < key x
    · rw [if_pos h]
      refine List.Pairwise.cons ?_ (List.Pairwise.cons hl.1 hl.2)
      intro b hb
      rcases List.mem_cons.mp hb with rfl | hb
      · omega
      · have := hl.1 b hb
        omega
    · rw [if_neg h]
      refine List.Pairwise.cons ?_ (ih hl.2)
      intro b hb
      have hperm := insertDesc_perm key x ys
      rcases List.mem_cons.mp ((hperm.mem_iff).mp hb) with rfl | hb
      · omega
      · exact hl.1 b hb

theorem sortDesc_sorted (key : QItem → Int) (l : List QItem) :
    (sortDesc key l).Pairwise (fun a b => key b ≤ key a) := by
  induction l with
  | nil => simp [sortDesc]
  | cons x xs ih => exact insertDesc_sorted key x (sortDesc key xs) ih

/-! ## Claims -/

/-- C1.  For every list `L` of items whose string fields contain arbitrary
Unicode text, `decode(encode(L))` equals `L` field-for-field: the decoded
JSON is exactly the serialized form of `L`, and reading its fields back
recovers every item unchanged. -/
theorem C1_decode_encode_roundtrip (L : List Item) :
    decodeData (encodeData L) = some (itemsToJson L) ∧
      itemsFromJson (itemsToJson L) = some L := by
  constructor
  · rw [encodeData, decodeData_encodeJson]
  · exact itemsFromJson_round L

/-- C2.  `loadData` never raises (it is a total function): it returns the
stored list when the stored text parses to a JSON array, and the empty
list when the key is absent, the text is not valid JSON, or the parsed
value is not an array. -/
theorem C2_loadData_spec :
    loadData none = [] ∧
      (∀ raw xs, parseJson raw.data = some (Json.arr xs) →
        loadData (some raw) = xs) ∧
      (∀ raw, (∀ xs, parseJson raw.data ≠ some (Json.arr xs)) →
        loadData (some raw) = []) := by
  refine ⟨rfl, ?_, ?_⟩
  · intro raw xs hparse
    rw [loadData]
    have hne : ¬raw = "" := by
      intro hcon
      subst hcon
      rw [show parseJson ("" : String).data = none from rfl] at hparse
      exact Option.noConfusion hparse
    rw [if_neg hne, hparse]
  · intro raw hno
    rw [loadData]
    by_cases hraw : raw = ""
    · rw [if_pos hraw]
    · rw [if_neg hraw]
      match hp : parseJson raw.data with
      | none => rfl
      | some Json.null => rfl
      | some (Json.bool b) => rfl
      | some (Json.num n) => rfl
      | some (Json.str s) => rfl
      | some (Json.obj fs) => rfl
      | some (Json.arr xs) => exact absurd hp (hno xs)

/-- Witness for C2 at concrete store states: a stored `"[1]"` loads as the
one-element list and a stored `"{"` (not valid JSON) loads as empty. -/
theorem C2_loadData_spec_witness :
    loadData (some (String.mk ['[', '1', ']'])) = [Json.num 1] ∧
      loadData (some (String.mk ['{'])) = [] := by
  constructor
  · exact C2_loadData_spec.2.1 (String.mk ['[', '1', ']']) [Json.num 1] rfl
  · refine C2_loadData_spec.2.2 (String.mk ['{']) ?_
    intro xs
    intro hcon
    rw [show parseJson (String.mk ['{']).data = none from rfl] at hcon
    exact Option.noConfusion hcon

/-- C5.  For every list `L`, sorting with key `"updatedAt"` returns a
permutation of `L` in non-increasing `updatedAt` order, where an item
missing the field compares as 0; the same holds for `"createdAt"`.　The
embedding is a pure function of the copied list, so the input is never
mutated. -/
theorem C5_sort_spec (L : List QItem) :
    (List.Perm (sortByNumKey "updatedAt" L) L ∧
      (sortByNumKey "updatedAt" L).Pairwise
        (fun a b => sortKeyVal "updatedAt" b ≤ sortKeyVal "updatedAt" a)) ∧
    (List.Perm (sortByNumKey "createdAt" L) L ∧
      (sortByNumKey "createdAt" L).Pairwise
        (fun a b => sortKeyVal "createdAt" b ≤ sortKeyVal "createdAt" a)) :=
  ⟨⟨sortDesc_perm _ L, sortDesc_sorted _ L⟩,
   ⟨sortDesc_perm _ L, sortDesc_sorted _ L⟩⟩

/-- C10.  The edit path of `handleSave` preserves list length and leaves
every item whose id differs from the edited id unchanged at its position;
`handleDelete` yields a sublist (remaining items unchanged, in order)
containing exactly the items whose id differs. -/
theorem C10_frame (editingId : String) (now : Int)
    (title content caution link tagsText : String) (prev : List Item)
    (did : String) :
    (∀ res, editingId ∈ prev.map Item.id →
      handleSaveEdit editingId now title content caution link tagsText prev
        = some res →
      res.length = prev.length ∧
        ∀ (i : Nat) (it : Item), prev[i]? = some it → it.id ≠ editingId →
          res[i]? = some it) ∧
    ((handleDelete true did prev).Sublist prev ∧
      (∀ it ∈ handleDelete true did prev, it ∈ prev ∧ it.id ≠ did) ∧
      (∀ it ∈ prev, it.id ≠ did → it ∈ handleDelete true did prev)) := by
  constructor
  · intro res hmem heq
    rw [handleSaveEdit] at heq
    by_cases ht : jsTrim title = ""
    · rw [if_pos ht] at heq
      exact Option.noConfusion heq
    · rw [if_neg ht] at heq
      have hres := Option.some.inj heq
      subst hres
      constructor
      · exact List.length_map _ _
      · intro i it hit hne
        rw [List.getElem?_map, hit]
        simp [hne]
  · refine ⟨?_, ?_, ?_⟩
    · rw [handleDelete, if_pos rfl]
      exact List.filter_sublist prev
    · intro it hit
      rw [handleDelete, if_pos rfl] at hit
      have := List.mem_filter.mp hit
      refine ⟨this.1, ?_⟩
      have h2 := this.2
      simpa using h2
    · intro it hit hne
      rw [handleDelete, if_pos rfl]
      refine List.mem_filter.mpr ⟨hit, ?_⟩
      simpa using hne

/-- Witness for C10 at a concrete two-item list: editing the first item
leaves the second untouched at index 1, and deleting the first keeps
exactly the second. -/
theorem C10_frame_witness :
    (∃ res, handleSaveEdit "A1" 5 "T2" "" "" "" ""
        [⟨"A1", "T", "", "", "", [], 1, 1⟩, ⟨"B2", "U", "", "", "", [], 1, 1⟩]
        = some res ∧ res[1]? = some ⟨"B2", "U", "", "", "", [], 1, 1⟩) ∧
      handleDelete true "A1"
        [⟨"A1", "T", "", "", "", [], 1, 1⟩, ⟨"B2", "U", "", "", "", [], 1, 1⟩]
        = [⟨"B2", "U", "", "", "", [], 1, 1⟩] := by
  constructor
  · refine ⟨[⟨"A1", "T2", "", "", "", [], 1, 5⟩, ⟨"B2", "U", "", "", "", [], 1, 1⟩],
      by decide, ?_⟩
    exact ((C10_frame "A1" 5 "T2" "" "" "" ""
      [⟨"A1", "T", "", "", "", [], 1, 1⟩, ⟨"B2", "U", "", "", "", [], 1, 1⟩]
      "A1").1 _ (by decide) (by decide)).2 1 ⟨"B2", "U", "", "", "", [], 1, 1⟩ rfl
      (by decide)
  · decide

/-- C3.  Create: an input whose title trims to the empty string fails with
the validation error (modelled as `none`; the caller's list is untouched);
otherwise the item is created with the minted id, `createdAt = updatedAt =
now`, comma-split/trimmed/non-empty tags, and is prepended; given the
minted id is unused, it is distinct from every existing item's id. -/
theorem C3_create_spec (newId : String) (now : Int)
    (title content caution link tagsText : String) (prev : List Item) :
    (jsTrim title = "" →
      handleSaveCreate newId now title content caution link tagsText prev
        = none) ∧
    (jsTrim title ≠ "" → newId ∉ prev.map Item.id →
      ∃ item, handleSaveCreate newId now title content caution link tagsText
          prev = some (item :: prev) ∧
        item.id = newId ∧ item.title = jsTrim title ∧
        item.createdAt = now ∧ item.updatedAt = now ∧
        item.tags = normalizeTags tagsText ∧
        ∀ other ∈ prev, other.id ≠ item.id) := by
  constructor
  · intro ht
    rw [handleSaveCreate]
    simp only [ht, reduceIte]
  · intro ht hfresh
    refine ⟨⟨newId, jsTrim title, content, caution, link,
      normalizeTags tagsText, now, now⟩, ?_, rfl, rfl, rfl, rfl, rfl, ?_⟩
    · rw [handleSaveCreate]
      simp only [if_neg ht]
    · intro other hother hcon
      exact hfresh (List.mem_map.mpr ⟨other, hother, hcon⟩)

/-- Witness for C3: a blank title fails; "Neck Tilt" creates an item with
equal timestamps prepended to the empty list. -/
theorem C3_create_spec_witness :
    handleSaveCreate "I1" 7 "  " "a" "b" "c" "d" [] = none ∧
      ∃ item, handleSaveCreate "I1" 7 "Neck Tilt" "" "" "" "x, ,y" [] =
          some (item :: []) ∧ item.id = "I1" ∧ item.title = "Neck Tilt" ∧
        item.createdAt = 7 ∧ item.updatedAt = 7 ∧
        item.tags = normalizeTags "x, ,y" ∧ ∀ other ∈ ([] : List Item),
          other.id ≠ item.id := by
  constructor
  · exact (C3_create_spec "I1" 7 "  " "a" "b" "c" "d" []).1 (by decide)
  · exact (C3_create_spec "I1" 7 "Neck Tilt" "" "" "" "x, ,y" []).2
      (by decide) (by decide)

/-- C4, counterexample.  The claim says the query is matched against the
*concatenation* of title, content, caution and space-joined tags; the code
interposes newline separators.  For the item with title `"a"` and content
`"b"`, the query `"ab"` matches the claim's concatenation but the code's
filter returns the empty list. -/
theorem C4_counterexample :
    specConcatMatch "ab" ⟨"a", some "b", none, none, none, none⟩ = true ∧
      filterItems "ab" [⟨"a", some "b", none, none, none, none⟩] = [] := by
  decide

/-- C4, amended.  With `q` the trimmed lowercased query: an empty `q`
returns the list unchanged; a non-empty `q` returns exactly the items for
which `q` is a substring of the lowercased *newline-separated* concatenation
of title, content, caution and space-joined tags, preserving order. -/
theorem C4_filter_spec (query : String) (L : List QItem) :
    (lowerChars (trimChars query.data) = [] → filterItems query L = L) ∧
    (lowerChars (trimChars query.data) ≠ [] →
      (filterItems query L).Sublist L ∧
      ∀ it, it ∈ filterItems query L ↔
        it ∈ L ∧ itemMatches (lowerChars (trimChars query.data)) it = true) := by
  constructor
  · intro hq
    rw [filterItems]
    simp only [hq, reduceIte]
  · intro hq
    rw [filterItems]
    simp only [if_neg hq]
    exact ⟨List.filter_sublist L, fun it => List.mem_filter⟩

/-- Witness for C4 amended: a whitespace query is the identity, and a
matching query keeps the matching item. -/
theorem C4_filter_spec_witness :
    filterItems "  " [⟨"a", some "b", none, none, none, none⟩]
        = [⟨"a", some "b", none, none, none, none⟩] ∧
      (⟨"Shoulder Stretch", none, none, some ["shoulder"], none, none⟩ ∈
        filterItems "shoulder"
          [⟨"Shoulder Stretch", none, none, some ["shoulder"], none, none⟩,
           ⟨"Knee Bend", none, none, none, none, none⟩]) := by
  constructor
  · exact (C4_filter_spec "  " [⟨"a", some "b", none, none, none, none⟩]).1
      (by decide)
  · exact (((C4_filter_spec "shoulder"
      [⟨"Shoulder Stretch", none, none, some ["shoulder"], none, none⟩,
       ⟨"Knee Bend", none, none, none, none, none⟩]).2 (by decide)).2
      ⟨"Shoulder Stretch", none, none, some ["shoulder"], none, none⟩).mpr
      ⟨by decide, by decide⟩

/-- C6, counterexample.  Updating or deleting with an id absent from the
list does **not** fail with any error: the edit path succeeds and returns
the list unchanged, and the delete path returns the list unchanged — both
silently. -/
theorem C6_counterexample :
    handleSaveEdit "ZZ" 5 "T2" "" "" "" "" [⟨"A1", "T", "", "", "", [], 1, 1⟩]
        = some [⟨"A1", "T", "", "", "", [], 1, 1⟩] ∧
      handleDelete true "ZZ" [⟨"A1", "T", "", "", "", [], 1, 1⟩]
        = [⟨"A1", "T", "", "", "", [], 1, 1⟩] := by
  decide

/-- C6, amended.  For an id absent from the list, the edit path of
`handleSave` (with a valid title) succeeds and leaves the list unchanged,
and `handleDelete` leaves the list unchanged; neither signals an error. -/
theorem C6_missing_id_noop (editingId : String) (now : Int)
    (title content caution link tagsText : String) (confirmed : Bool)
    (list : List Item) (hmiss : editingId ∉ list.map Item.id) :
    (jsTrim title ≠ "" →
      handleSaveEdit editingId now title content caution link tagsText list
        = some list) ∧
    handleDelete confirmed editingId list = list := by
  have hne : ∀ it ∈ list, it.id ≠ editingId := by
    intro it hit hcon
    exact hmiss (List.mem_map.mpr ⟨it, hit, hcon⟩)
  constructor
  · intro ht
    rw [handleSaveEdit]
    simp only [if_neg ht]
    congr 1
    calc list.map (fun it =>
          if it.id = editingId then
            { it with
              title := jsTrim title
              content := content
              caution := caution
              link := link
              tags := normalizeTags tagsText
              updatedAt := now }
          else it)
        = list.map id := by
          apply List.map_congr_left
          intro it hit
          rw [if_neg (hne it hit)]
          rfl
      _ = list := List.map_id list
  · rw [handleDelete]
    cases confirmed with
    | false => rw [if_neg (by decide)]
    | true =>
      rw [if_pos rfl]
      apply List.filter_eq_self.mpr
      intro it hit
      simpa using hne it hit

/-- Witness for C6 amended at a concrete one-item list and missing id. -/
theorem C6_missing_id_noop_witness :
    handleSaveEdit "ZZ" 9 "New" "" "" "" "" [⟨"A1", "T", "", "", "", [], 1, 1⟩]
        = some [⟨"A1", "T", "", "", "", [], 1, 1⟩] ∧
      handleDelete true "ZZ" [⟨"A1", "T", "", "", "", [], 1, 1⟩]
        = [⟨"A1", "T", "", "", "", [], 1, 1⟩] :=
  ⟨(C6_missing_id_noop "ZZ" 9 "New" "" "" "" "" true
      [⟨"A1", "T", "", "", "", [], 1, 1⟩] (by decide)).1 (by decide),
   (C6_missing_id_noop "ZZ" 9 "New" "" "" "" "" true
      [⟨"A1", "T", "", "", "", [], 1, 1⟩] (by decide)).2⟩

/-- C7, counterexample.  The share-link decode path installs decoded
records **as is**: ingesting the encoded `[{}]` puts the empty record in
the store untouched — it is not coerced with defaults (it has no `title`
field at all). -/
theorem C7_counterexample :
    shareIngest (encodeJson (Json.arr [Json.obj []])) true [] = [Json.obj []] ∧
      getField (Json.obj []) "title" = none := by
  constructor
  · rw [show encodeJson (Json.arr [Json.obj []])
        = base64Encode (utf8Encode ['[', '{', '}', ']']) from by
      rw [encodeJson]
      rw [show stringifyJson (Json.arr [Json.obj []]) = ['[', '{', '}', ']'] from
        by simp [stringifyJson, stringifyElems]]]
    rfl
  · rfl

/-- C7, amended.  `importJSON` drops records that are falsy or miss a
truthy `id`/`title` and coerces the kept ones (`sanitizeRecord`); a
non-array payload fails visibly; a dropped record never aborts the rest;
the share-link path installs the decoded array without per-record
sanitization. -/
theorem C7_sanitize_spec :
    (∀ (now : Int) ds, importJSONData now (Json.arr ds)
        = some ((ds.filter keepRecord).map (sanitizeRecord now))) ∧
    (∀ (now : Int) (j : Json), (∀ ds, j ≠ Json.arr ds) →
      importJSONData now j = none) ∧
    (∀ (now : Int) pre bad post, keepRecord bad = false →
      importJSONData now (Json.arr (pre ++ bad :: post))
        = importJSONData now (Json.arr (pre ++ post))) ∧
    (∀ token xs current, decodeData token = some (Json.arr xs) →
      shareIngest token true current = xs) := by
  refine ⟨?_, ?_, ?_, ?_⟩
  · intro now ds
    rfl
  · intro now j hj
    cases j with
    | arr ds => exact absurd rfl (hj ds)
    | null => rfl
    | bool b => rfl
    | num n => rfl
    | str s => rfl
    | obj fs => rfl
  · intro now pre bad post hbad
    rw [importJSONData, importJSONData]
    simp [List.filter_append, List.filter_cons, hbad]
  · intro token xs current h
    rw [shareIngest, h]
    rfl

/-- Witness for C7 amended: a record with no `id`/`title` is dropped
without affecting the rest of an import, and a decoded share array is
installed verbatim. -/
theorem C7_sanitize_spec_witness :
    importJSONData 5 (Json.arr [Json.obj [],
        Json.obj [("id", Json.str "x"), ("title", Json.str "y")]])
        = importJSONData 5
            (Json.arr [Json.obj [("id", Json.str "x"), ("title", Json.str "y")]]) ∧
      shareIngest (encodeJson (Json.arr [])) true [Json.null] = [] :=
  ⟨C7_sanitize_spec.2.2.1 5 [] (Json.obj [])
      [Json.obj [("id", Json.str "x"), ("title", Json.str "y")]] rfl,
   C7_sanitize_spec.2.2.2 (encodeJson (Json.arr [])) [] [Json.null] (by
     rw [show encodeJson (Json.arr []) = base64Encode (utf8Encode ['[', ']']) from by
       rw [encodeJson]
       rw [show stringifyJson (Json.arr []) = ['[', ']'] from by simp [stringifyJson]]]
     rfl)⟩

/-- C8, code bug.  `encodeData` uses plain `btoa`, whose alphabet contains
`+`; the app embeds the token verbatim in `?data=` and reads it back with
`URLSearchParams`, which form-decodes `+` to a space.  For the item list
below the token contains `+`, so the app's own query-value decoding does
not return the token unchanged — the characters are not safe to embed
verbatim. -/
theorem C8_token_not_urlsafe :
    '+' ∈ encodeData [⟨"A", ">", "", "", "", [], 1, 1⟩] ∧
      formDecodeValue (encodeData [⟨"A", ">", "", "", "", [], 1, 1⟩])
        ≠ encodeData [⟨"A", ">", "", "", "", [], 1, 1⟩] := by
  rw [show encodeData [⟨"A", ">", "", "", "", [], 1, 1⟩]
      = base64Encode (utf8Encode
      ['[', '{', '\"', 'i', 'd', '\"', ':', '\"', 'A', '\"', ',', '\"', 
       't', 'i', 't', 'l', 'e', '\"', ':', '\"', '>', '\"', ',', '\"', 'c', 
       'o', 'n', 't', 'e', 'n', 't', '\"', ':', '\"', '\"', ',', '\"', 'c', 
       'a', 'u', 't', 'i', 'o', 'n', '\"', ':', '\"', '\"', ',', '\"', 'l', 
       'i', 'n', 'k', '\"', ':', '\"', '\"', ',', '\"', 't', 'a', 'g', 's', 
       '\"', ':', '[', ']', ',', '\"', 'c', 'r', 'e', 'a', 't', 'e', 'd', 
       'A', 't', '\"', ':', '1', ',', '\"', 'u', 'p', 'd', 'a', 't', 'e', 
       'd', 'A', 't', '\"', ':', '1', '}', ']']) from by
    rw [encodeData, encodeJson]
    rw [show stringifyJson (itemsToJson [⟨"A", ">", "", "", "", [], 1, 1⟩])
        =
      ['[', '{', '\"', 'i', 'd', '\"', ':', '\"', 'A', '\"', ',', '\"', 
       't', 'i', 't', 'l', 'e', '\"', ':', '\"', '>', '\"', ',', '\"', 'c', 
       'o', 'n', 't', 'e', 'n', 't', '\"', ':', '\"', '\"', ',', '\"', 'c', 
       'a', 'u', 't', 'i', 'o', 'n', '\"', ':', '\"', '\"', ',', '\"', 'l', 
       'i', 'n', 'k', '\"', ':', '\"', '\"', ',', '\"', 't', 'a', 'g', 's', 
       '\"', ':', '[', ']', ',', '\"', 'c', 'r', 'e', 'a', 't', 'e', 'd', 
       'A', 't', '\"', ':', '1', ',', '\"', 'u', 'p', 'd', 'a', 't', 'e', 
       'd', 'A', 't', '\"', ':', '1', '}', ']'] from by
      simp [itemsToJson, itemToJson, stringifyJson, stringifyElems, stringifyFields,
        escapeList, escapeChar, intChars, natToChars, Nat.digitChar]]]
  constructor
  · decide
  · decide

/-- Auxiliary for C9: along create/edit/delete runs with non-decreasing
clock readings, every item keeps `createdAt ≤ updatedAt ≤ clock`. -/
theorem runOps_bound (ops : List Op) :
    ∀ (st : List Item) (t : Int),
      (∀ it ∈ st, it.createdAt ≤ it.updatedAt ∧ it.updatedAt ≤ t) →
      TimesMono t ops →
      ∀ it ∈ runOps ops st, it.createdAt ≤ it.updatedAt := by
  induction ops with
  | nil =>
    intro st t hinv _ it hit
    exact (hinv it (by simpa [runOps] using hit)).1
  | cons op rest ih =>
    intro st t hinv hmono
    have hstep : runOps (op :: rest) st = runOps rest (applyOp st op) := rfl
    rw [hstep]
    cases op with
    | create newId now title content caution link tagsText =>
      obtain ⟨hle, hmono2⟩ : t ≤ now ∧ TimesMono now rest := hmono
      refine ih (applyOp st (.create newId now title content caution link
        tagsText)) now ?_ hmono2
      intro it hit
      rw [applyOp] at hit
      rw [handleSaveCreate] at hit
      by_cases ht : jsTrim title = ""
      · rw [if_pos ht] at hit
        have := hinv it hit
        omega
      · rw [if_neg ht] at hit
        simp only [List.mem_cons] at hit
        rcases hit with rfl | hit
        · constructor <;> simp
        · have := hinv it hit
          omega
    | edit editingId now title content caution link tagsText =>
      obtain ⟨hle, hmono2⟩ : t ≤ now ∧ TimesMono now rest := hmono
      refine ih (applyOp st (.edit editingId now title content caution link
        tagsText)) now ?_ hmono2
      intro it hit
      rw [applyOp] at hit
      rw [handleSaveEdit] at hit
      by_cases ht : jsTrim title = ""
      · rw [if_pos ht] at hit
        have := hinv it hit
        omega
      · rw [if_neg ht] at hit
        simp only [List.mem_map] at hit
        obtain ⟨src, hsrc, hmap⟩ := hit
        have hsi := hinv src hsrc
        by_cases hid : src.id = editingId
        · rw [if_pos hid] at hmap
          subst hmap
          exact ⟨by simp; omega, by simp⟩
        · rw [if_neg hid] at hmap
          subst hmap
          omega
    | del confirmed id =>
      have hmono2 : TimesMono t rest := hmono
      refine ih (applyOp st (.del confirmed id)) t ?_ hmono2
      intro it hit
      rw [applyOp, handleDelete] at hit
      by_cases hc : confirmed = true
      · rw [if_pos hc] at hit
        exact hinv it (List.mem_of_mem_filter hit)
      · rw [if_neg hc] at hit
        exact hinv it hit

/-- C9, amended.  Starting from the empty store, any sequence of create /
edit / delete operations whose clock readings never decrease keeps the
invariant `updatedAt ≥ createdAt` for every item.  (Import and share-link
ingestion, by contrast, can install items violating it — see the
counterexample.) -/
theorem C9_invariant_cud (ops : List Op) (t0 : Int) (h : TimesMono t0 ops) :
    ∀ it ∈ runOps ops [], it.createdAt ≤ it.updatedAt :=
  runOps_bound ops [] t0 (by simp) h

/-- Witness for C9 amended: after a create at time 1 and an edit at time 2,
the resulting item satisfies the invariant. -/
theorem C9_invariant_cud_witness :
    (⟨"A", "T2", "", "", "", [], 1, 2⟩ : Item).createdAt
      ≤ (⟨"A", "T2", "", "", "", [], 1, 2⟩ : Item).updatedAt :=
  C9_invariant_cud [Op.create "A" 1 "T" "" "" "" "",
      Op.edit "A" 2 "T2" "" "" "" ""] 0 ⟨by decide, by decide, trivial⟩
    ⟨"A", "T2", "", "", "", [], 1, 2⟩ (by decide)

/-- C9, counterexample.  The import path is reachable in one step and its
sanitizer keeps arbitrary numeric timestamps, so a record with
`createdAt = 2, updatedAt = 1` lands in the store with
`updatedAt < createdAt`. -/
theorem C9_import_counterexample :
    ∃ (rec : Json) (u c : Int),
      importJSONData 100 (Json.arr [Json.obj [("id", Json.str "a"),
          ("title", Json.str "t"), ("createdAt", Json.num 2),
          ("updatedAt", Json.num 1)]]) = some [rec] ∧
        getField rec "updatedAt" = some (Json.num u) ∧
        getField rec "createdAt" = some (Json.num c) ∧ u < c := by
  refine ⟨sanitizeRecord 100 (Json.obj [("id", Json.str "a"),
    ("title", Json.str "t"), ("createdAt", Json.num 2),
    ("updatedAt", Json.num 1)]), 1, 2, ?_, ?_, ?_, by norm_num⟩
  · rfl
  · simp [sanitizeRecord, getField, getFieldList, numFieldOr, jsToNumberOpt,
      strFieldOr, jsTruthy]
  · simp [sanitizeRecord, getField, getFieldList, numFieldOr, jsToNumberOpt,
      strFieldOr, jsTruthy]

end ExerciseGuide

